import Mathlib

/-!
Verification of the `EventRouter` channel-routing core (trie-based route
matching, LRU match cache, guard/middleware dispatch pipeline) against its
natural-language specification.

The TypeScript source is embedded shallowly:

* strings are `String` / `List Char`; JS `Map` objects and plain objects used
  as records are insertion-ordered association lists `List (k × v)`;
* the compiled segment regular expressions are modelled structurally as an
  alternating list of literal runs and typed capture groups (`RTok`), with an
  executable matcher (`execToks`) implementing the anchored, greedy,
  backtracking semantics of the JS regex engine on exactly the capture
  patterns produced by `getTypePattern`;
* JS numbers produced by parameter coercion are modelled as rationals;
* the asynchronous dispatch pipeline runs in a state monad over an explicit
  trace of observable actions, with exceptions modelled by `Except`.
-/

set_option maxHeartbeats 1600000

universe u

/-- Models JavaScript `String.prototype.split` with a non-empty separator, on
character lists. `fuel` bounds the number of scan steps; every step consumes
at least one character, so `s.length + 1` (supplied by `jsSplit`) always
suffices. `acc` holds the characters of the current piece in reverse. -/
def jsSplitAux (dl : List Char) : Nat → List Char → List Char → List (List Char)
  | 0, _, acc => [acc.reverse]
  | _ + 1, [], acc => [acc.reverse]
  | fuel + 1, c :: rest, acc =>
    if dl.isPrefixOf (c :: rest) then
      acc.reverse :: jsSplitAux dl fuel ((c :: rest).drop dl.length) []
    else
      jsSplitAux dl fuel rest (c :: acc)

/-- Models JavaScript `String.prototype.split`. An empty separator splits into
single characters, as in JS. -/
def jsSplit (dl s : List Char) : List (List Char) :=
  if dl = [] then s.map (fun c => [c]) else jsSplitAux dl (s.length + 1) s []

/-- Models JavaScript `Array.prototype.join` at the character-list level. -/
def jsJoinL (dl : List Char) : List (List Char) → List Char
  | [] => []
  | [s] => s
  | s :: rest => s ++ dl ++ jsJoinL dl rest

/-- Models `path.join(delimiter)` on a list of segment strings. -/
def jsJoin (dl : String) (l : List String) : String :=
  String.mk (jsJoinL dl.data (l.map String.data))

/-- Models assignment `obj[k] = v` on a JS object used as a record, and
`Map.prototype.set`: an existing key keeps its position and gets the new
value, a fresh key is appended. -/
def objSet {κ : Type u} {α : Type u} [DecidableEq κ] : List (κ × α) → κ → α → List (κ × α)
  | [], k, v => [(k, v)]
  | (k', v') :: rest, k, v =>
    if k' = k then (k, v) :: rest else (k', v') :: objSet rest k v

/-- Models `Object.assign(base, upd)`: the updates are applied in order. -/
def objAssign {κ : Type u} {α : Type u} [DecidableEq κ] (base upd : List (κ × α)) : List (κ × α) :=
  upd.foldl (fun acc kv => objSet acc kv.1 kv.2) base

/-- Key lookup in a JS-object-as-record / JS `Map` model. -/
def objGet {κ : Type u} {α : Type u} [DecidableEq κ] : List (κ × α) → κ → Option α
  | [], _ => none
  | (k', v') :: rest, k => if k' = k then some v' else objGet rest k

/-- Models `Map.prototype.delete` (keys are unique, so removing the first
occurrence is exact). -/
def objDelete {κ : Type u} {α : Type u} [DecidableEq κ] : List (κ × α) → κ → List (κ × α)
  | [], _ => []
  | (k', v') :: rest, k => if k' = k then rest else (k', v') :: objDelete rest k

/-- Models `segment.startsWith(":")`. -/
def startsWithColon (s : String) : Bool :=
  s.data.head? == some ':'

/-- Models `segment.slice(1)`. -/
def sliceOne (s : String) : String :=
  String.mk s.data.tail

/-- ASCII lower-casing of one character (the router only lower-cases
ASCII text such as `"TRUE"`). -/
def asciiLower (c : Char) : Char :=
  if 'A' ≤ c ∧ c ≤ 'Z' then Char.ofNat (c.toNat + 32) else c

/-- Models `String.prototype.toLowerCase` on the ASCII fragment. -/
def jsToLower (s : String) : String :=
  String.mk (s.data.map asciiLower)

/-- Numeric value of a digit run. -/
def natOfDigits (cs : List Char) : Nat :=
  cs.foldl (fun n c => 10 * n + (c.toNat - '0'.toNat)) 0

/-- Models the JavaScript `Number(value)` conversion on the decimal fragment:
surrounding spaces are ignored, the empty (or all-space) string is `0`, an
optional sign followed by decimal digits with an optional fraction parses to
the exact rational, and anything else is `NaN` (`none`). Hexadecimal,
exponent and `Infinity` forms are outside the fragment reachable from the
router's capture patterns and are mapped to `NaN`. -/
def jsNumber (s : String) : Option ℚ :=
  let cs := ((s.data.dropWhile (· = ' ')).reverse.dropWhile (· = ' ')).reverse
  if cs = [] then some 0
  else
    let neg := cs.head? = some '-'
    let cs1 := if cs.head? = some '-' ∨ cs.head? = some '+' then cs.tail else cs
    let intPart := cs1.takeWhile Char.isDigit
    let rest := cs1.dropWhile Char.isDigit
    let mag : Option ℚ :=
      match rest with
      | [] => if intPart = [] then none else some (natOfDigits intPart : ℚ)
      | '.' :: frac =>
        if frac.all Char.isDigit ∧ (intPart ≠ [] ∨ frac ≠ []) then
          some (mkRat (natOfDigits (intPart ++ frac)) (10 ^ frac.length))
        else none
      | _ => none
    mag.map (fun q => if neg then -q else q)

/-- Character range test as a `Bool`. -/
def charBetween (lo hi c : Char) : Bool :=
  decide (lo ≤ c) && decide (c ≤ hi)

/-- Hexadecimal digit, as in the uuid capture pattern `[0-9a-fA-F]`. -/
def isHexChar (c : Char) : Bool :=
  c.isDigit || charBetween 'a' 'f' c || charBetween 'A' 'F' c

/-- Matcher for the whole-string semantics of `-?\d+(?:\.\d+)?`
(the `number` capture pattern). -/
def numberTokOk (cs : List Char) : Bool :=
  let cs1 := if cs.head? = some '-' then cs.tail else cs
  let d := cs1.takeWhile Char.isDigit
  let r := cs1.dropWhile Char.isDigit
  decide (d ≠ []) &&
    (match r with
     | [] => true
     | '.' :: f => decide (f ≠ []) && f.all Char.isDigit
     | _ => false)

/-- Timezone tail of the datetime pattern: `(?:Z|[+-][0-9]{2}:[0-9]{2})?`
followed by the anchor. -/
def dtOffsetOk : List Char → Bool
  | [] => true
  | ['Z'] => true
  | [s, h1, h2, ':', m1, m2] =>
    (s == '+' || s == '-') && [h1, h2, m1, m2].all Char.isDigit
  | _ => false

/-- Optional fraction `(?:\.[0-9]+)?` followed by the timezone tail. -/
def dtFracThenOffset : List Char → Bool
  | '.' :: rest =>
    decide (rest.takeWhile Char.isDigit ≠ []) &&
      dtOffsetOk (rest.dropWhile Char.isDigit)
  | rest => dtOffsetOk rest

/-- Whole-string semantics of the `datetime` capture pattern
`[0-9]{4}-[0-9]{2}-[0-9]{2}T[0-9]{2}:[0-9]{2}:[0-9]{2}(?:\.[0-9]+)?(?:Z|[+-][0-9]{2}:[0-9]{2})?`. -/
def datetimeOk : List Char → Bool
  | y1 :: y2 :: y3 :: y4 :: '-' :: m1 :: m2 :: '-' :: d1 :: d2 :: 'T' ::
      h1 :: h2 :: ':' :: i1 :: i2 :: ':' :: s1 :: s2 :: rest =>
    [y1, y2, y3, y4, m1, m2, d1, d2, h1, h2, i1, i2, s1, s2].all Char.isDigit &&
      dtFracThenOffset rest
  | _ => false

/-- Whole-string semantics of the `uuid` capture pattern (8-4-4-4-12
hexadecimal groups). -/
def uuidOk (cs : List Char) : Bool :=
  let gs := jsSplit ['-'] cs
  (gs.map List.length == [8, 4, 4, 4, 12]) && gs.all (fun g => g.all isHexChar)

/-- Local-part character class `[a-zA-Z0-9._%+-]` of the email pattern. -/
def emailLocalChar (c : Char) : Bool :=
  c.isAlphanum || c == '.' || c == '_' || c == '%' || c == '+' || c == '-'

/-- Domain character class `[a-zA-Z0-9.-]` of the email pattern. -/
def emailDomainChar (c : Char) : Bool :=
  c.isAlphanum || c == '.' || c == '-'

/-- Decides whether `dom` matches `[a-zA-Z0-9.-]+\.[a-zA-Z]{2,}` as a whole
string: some decomposition `d ++ "." ++ tld` works (backtracking existence). -/
def domainTldOk (dom : List Char) : Bool :=
  (List.range dom.length).any (fun i =>
    match dom.drop i with
    | '.' :: tld =>
      decide (dom.take i ≠ []) && (dom.take i).all emailDomainChar &&
        decide (tld.length ≥ 2) && tld.all Char.isAlpha
    | _ => false)

/-- Whole-string semantics of the `email` capture pattern
`[a-zA-Z0-9._%+-]+@[a-zA-Z0-9.-]+\.[a-zA-Z]{2,}`; since no character class
contains `@`, a whole match has exactly one `@`. -/
def emailOk (cs : List Char) : Bool :=
  let loc := cs.takeWhile (· ≠ '@')
  match cs.dropWhile (· ≠ '@') with
  | '@' :: dom =>
    decide (loc ≠ []) && loc.all emailLocalChar && dom.all (· ≠ '@') &&
      domainTldOk dom
  | _ => false

/-- Whole-string semantics of the `slug` capture pattern
`[a-z0-9]+(?:-[a-z0-9]+)*`: non-empty lower-alphanumeric runs joined by
single hyphens. -/
def slugOk (cs : List Char) : Bool :=
  (jsSplit ['-'] cs).all (fun g =>
    decide (g ≠ []) && g.all (fun c => c.isLower || c.isDigit))

/-- One dot-separated group of the ipv4 pattern:
`25[0-5]|2[0-4][0-9]|[01]?[0-9][0-9]?`. -/
def octetOk : List Char → Bool
  | [a] => a.isDigit
  | [a, b] => a.isDigit && b.isDigit
  | [a, b, c] =>
    ((a == '0' || a == '1') && b.isDigit && c.isDigit) ||
      (a == '2' && charBetween '0' '4' b && c.isDigit) ||
      (a == '2' && b == '5' && charBetween '0' '5' c)
  | _ => false

/-- Whole-string semantics of the `ipv4` capture pattern. -/
def ipv4Ok (cs : List Char) : Bool :=
  let gs := jsSplit ['.'] cs
  decide (gs.length = 4) && gs.all octetOk

/-- Whole-string semantics of the capture pattern returned by
`getTypePattern` (source lines 1066-1100). The switch key is the raw type
name captured from the template, matching the JS `switch` on the (unchecked)
type string; unknown names and `"string"` both take the default branch
`[^:]+` (note: the literal `:` of the source, not the configured
delimiter). -/
def typeWhole : Option String → List Char → Bool
  | some "number", cs => numberTokOk cs
  | some "boolean", cs => cs == "true".data || cs == "false".data
  | some "datetime", cs => datetimeOk cs
  | some "uuid", cs => uuidOk cs
  | some "email", cs => emailOk cs
  | some "slug", cs => decide (cs ≠ []) && slugOk cs
  | some "ipv4", cs => ipv4Ok cs
  | some "alpha", cs => decide (cs ≠ []) && cs.all Char.isAlpha
  | some "alphanumeric", cs => decide (cs ≠ []) && cs.all Char.isAlphanum
  | _, cs => decide (cs ≠ []) && cs.all (· ≠ ':')

/-- A token of a compiled segment pattern: the structural model of the regex
string built by `parseSegmentPattern` — escaped literal runs alternate with
typed capture groups, anchored at both ends. -/
inductive RTok : Type where
  | lit (cs : List Char)
  | cap (ty : Option String)
deriving DecidableEq

/-- One `[name]` / `[name:type]` placeholder found in a segment, with its
`[start, end)` character positions in the segment, mirroring
`ParamDefinition` of the source (the type is kept as the raw captured
string, as the source's unchecked cast does). -/
structure ParamDefinition where
  name : String
  ty : Option String
  position : Nat × Nat
deriving DecidableEq

/-- Model of the source's `SegmentPattern`: the raw segment, its parameter
definitions, and the compiled regex modelled as `RTok` tokens. The global
regex instance cache of the source memoizes compilation of identical
segment strings and is semantically transparent, so it is not modelled. -/
structure SegmentPattern where
  raw : String
  params : List ParamDefinition
  toks : List RTok
deriving DecidableEq

/-- Parameter-name character `[a-zA-Z0-9_]` (continuation position). -/
def pnChar (c : Char) : Bool :=
  c.isAlpha || c.isDigit || c == '_'

/-- One attempt of the parameter regex
`\[([a-zA-Z_][a-zA-Z0-9_]*)(?::([a-zA-Z]+))?\]` anchored at the current
position; returns the name, the optional type string and the total matched
length. Maximal-munch on the name and type runs is equivalent to the greedy
backtracking of the JS engine, because giving characters back can never
reach the required `]` / `:`. -/
def tryParamAt : List Char → Option (String × Option String × Nat)
  | '[' :: rest =>
    let nm := rest.takeWhile pnChar
    match nm.head? with
    | none => none
    | some c0 =>
      if c0.isDigit then none
      else
        match rest.drop nm.length with
        | ']' :: _ => some (String.mk nm, none, nm.length + 2)
        | ':' :: rest2 =>
          let tys := rest2.takeWhile Char.isAlpha
          if tys = [] then none
          else
            match rest2.drop tys.length with
            | ']' :: _ =>
              some (String.mk nm, some (String.mk tys), nm.length + tys.length + 3)
            | _ => none
        | _ => none
  | _ => none

/-- The global-flag exec loop of the parameter regex: leftmost matches found
in order, resuming after each match's end, advancing one position when no
match starts here. Each entry is `(name, type?, start, end)`. `fuel` bounds
the scan; `segment.length + 1` always suffices. -/
def scanParams : Nat → List Char → Nat → List (String × Option String × Nat × Nat)
  | 0, _, _ => []
  | _ + 1, [], _ => []
  | fuel + 1, cs, pos =>
    match tryParamAt cs with
    | some (nm, ty, len) => (nm, ty, pos, pos + len) :: scanParams fuel (cs.drop len) (pos + len)
    | none => scanParams fuel cs.tail (pos + 1)

/-- Builds the token list of the compiled regex exactly as the source builds
the regex string: the literal run before each placeholder (when non-empty),
the placeholder's typed capture group, and the trailing literal run. The
source's metacharacter escaping makes literal text match literally, which is
what a structural `RTok.lit` token does. -/
def buildToks (cs : List Char) : Nat → List (String × Option String × Nat × Nat) → List RTok
  | lastIdx, [] =>
    if lastIdx < cs.length then [RTok.lit (cs.drop lastIdx)] else []
  | lastIdx, (_, ty, s, e) :: rest =>
    (if lastIdx < s then [RTok.lit ((cs.drop lastIdx).take (s - lastIdx))] else []) ++
      RTok.cap ty :: buildToks cs e rest

/-- Model of `parseSegmentPattern` (source lines 1004-1064): scan the segment
for placeholders; with none, return `none` ("no pattern"); otherwise build
the `SegmentPattern` with the compiled token list. -/
def parseSegmentPattern (segment : String) : Option SegmentPattern :=
  let ps := scanParams (segment.length + 1) segment.data 0
  if ps = [] then none
  else
    some
      { raw := segment
        params := ps.map (fun q => ⟨q.1, q.2.1, (q.2.2.1, q.2.2.2)⟩)
        toks := buildToks segment.data 0 ps }

/-- First `some` of a list of options. -/
def firstSome {α : Type u} (l : List (Option α)) : Option α :=
  l.foldr (fun o acc => o.orElse (fun _ => acc)) none

/-- Executes the compiled anchored segment regex against a whole segment and
returns the capture-group values in order. Greedy groups with backtracking
are modelled by trying longer captures first and taking the first complete
match; every capture pattern of `getTypePattern` requires at least one
character. -/
def execToks : List RTok → List Char → Option (List (List Char))
  | [], cs => if cs = [] then some [] else none
  | .lit l :: ts, cs =>
    if l.isPrefixOf cs then execToks ts (cs.drop l.length) else none
  | .cap ty :: ts, cs =>
    firstSome ((List.range (cs.length + 1)).reverse.map (fun k =>
      if 1 ≤ k ∧ typeWhole ty (cs.take k) = true then
        (execToks ts (cs.drop k)).map (fun caps => cs.take k :: caps)
      else none))

/-- A coerced parameter value: JS strings, numbers (exact rationals on the
fragment produced by coercion), booleans, and `Date` objects. A valid date
is represented by the ISO string it was parsed from, which the router never
inspects further. -/
inductive ParamValue : Type where
  | str (s : String)
  | num (q : ℚ)
  | bool (b : Bool)
  | date (iso : String)
deriving DecidableEq

/-- Models `!isNaN(new Date(value).getTime())` on the ISO-shaped strings the
datetime capture pattern can produce: the shape must match and the
components must be in calendar range. Other host-specific `Date` input
formats are outside the fragment reachable from the router and are treated
as unparseable. -/
def jsDateValid (s : String) : Bool :=
  match s.data with
  | y1 :: y2 :: y3 :: y4 :: '-' :: m1 :: m2 :: '-' :: d1 :: d2 :: 'T' ::
      h1 :: h2 :: ':' :: i1 :: i2 :: ':' :: s1 :: s2 :: rest =>
    ([y1, y2, y3, y4, m1, m2, d1, d2, h1, h2, i1, i2, s1, s2].all Char.isDigit &&
        dtFracThenOffset rest) &&
      (let mo := natOfDigits [m1, m2]
       let da := natOfDigits [d1, d2]
       decide (1 ≤ mo) && decide (mo ≤ 12) && decide (1 ≤ da) && decide (da ≤ 31) &&
         decide (natOfDigits [h1, h2] ≤ 23) && decide (natOfDigits [i1, i2] ≤ 59) &&
         decide (natOfDigits [s1, s2] ≤ 59))
  | _ => false

/-- Model of `coerceParamValue` (source lines 1103-1132): the switch on the
declared type string; `number` falls back to the original string when
`Number` gives `NaN`, `boolean` compares the lower-cased text with
`"true"`, `datetime` falls back when the date is invalid, and every other
case (including the regex-validated string-shaped types) returns the string
unchanged. Captured values are never `undefined`/`null` here because every
capture group of a compiled pattern participates in a successful match. -/
def coerceParamValue (value : String) (ty : Option String) : ParamValue :=
  match ty with
  | some "number" =>
    match jsNumber value with
    | some q => .num q
    | none => .str value
  | some "boolean" => .bool (jsToLower value == "true")
  | some "datetime" => if jsDateValid value then .date value else .str value
  | _ => .str value

/-- Model of `extractParamsFromSegment` (source lines 1134-1155): run the
compiled regex; on success coerce each capture in order into a fresh
params record. -/
def extractParamsFromSegment (segment : String) (pat : SegmentPattern) :
    Option (List (String × ParamValue)) :=
  match execToks pat.toks segment.data with
  | none => none
  | some caps =>
    some ((pat.params.zip caps).foldl
      (fun acc pc => objSet acc pc.1.name (coerceParamValue (String.mk pc.2) pc.1.ty)) [])

example : parseSegmentPattern "items" = none := by decide
example : (parseSegmentPattern "[id:number]").isSome = true := by decide
example :
    extractParamsFromSegment "42" ((parseSegmentPattern "[id:number]").getD ⟨"", [], []⟩) =
      some [("id", ParamValue.num 42)] := by decide
example :
    extractParamsFromSegment "abc" ((parseSegmentPattern "[id:number]").getD ⟨"", [], []⟩) =
      none := by decide

/-! ## The dispatch monad

Handlers, middleware and guards are asynchronous JS functions. Their
observable behaviour is modelled in a state monad over `DSt`: `trace`
records the observable actions user-supplied stages perform (the shallow
embedding of their side effects), `index` is the mutable cursor of
`executeMiddlewareChain`'s closure, and `result` is the local `result`
variable of `execute`. Thrown `Error`s are modelled by `Except JsError`,
with the state surviving a throw as JS side effects do. -/

/-- A thrown JS `Error`, identified by its message. -/
structure JsError : Type where
  message : String
deriving DecidableEq

/-- Dispatch-visible mutable state: the observable action trace, the
middleware chain's `index` closure variable, and `execute`'s `result`
variable. -/
structure DSt (T : Type) : Type where
  index : Nat
  trace : List String
  result : Option T

/-- The dispatch monad: state over `DSt T` with JS exceptions. -/
abbrev DispM (T : Type) (α : Type) : Type :=
  ExceptT JsError (StateM (DSt T)) α

/-- Lift a pure `Except` computation (a synchronous JS call that may throw)
into the dispatch monad. -/
def liftE {T α : Type} : Except JsError α → DispM T α
  | .ok a => pure a
  | .error e => throw e

/-- Record an observable action in the trace (the primitive with which the
theorems instrument user-supplied guards, middleware and handlers). -/
def logEv {T : Type} (tag : String) : DispM T Unit :=
  modify (fun s => { s with trace := s.trace ++ [tag] })

/-- Model of `EventContext` (source lines 514-520). `metadata` values are
modelled as strings; the router only ever reads `metadata.traceId`. -/
structure EventContext (T : Type) : Type where
  channel : String
  params : List (String × ParamValue)
  event : T
  metadata : Option (List (String × String))
  traceId : String

/-- Model of `EventHandler`. -/
abbrev EventHandler (T : Type) : Type := EventContext T → DispM T Unit

/-- Model of `Middleware`: receives the context and the `next` continuation. -/
abbrev Middleware (T : Type) : Type := EventContext T → DispM T Unit → DispM T Unit

/-- Model of `Guard`: resolves to a boolean and may throw. -/
abbrev Guard (T : Type) : Type := EventContext T → DispM T Bool

/-- Model of `Controller`: an event handler returning a value, or a plain
non-callable value (`typeof !== "function"`). -/
inductive Controller (T : Type) : Type where
  | fnc (f : EventContext T → DispM T T)
  | val (v : T)

/-- Result of `safeParse` in the generic validator interface. -/
structure SafeParseResult (T : Type) : Type where
  success : Bool
  data : Option T
  error : Option String

/-- Result of `validate` in the generic validator interface. -/
structure ValidateResult (T : Type) : Type where
  value : Option T
  error : Option String

/-- Model of `ValidatorSchema` (source lines 538-542): up to three optional
validation entry points, probed in the order `safeParse`, `parse`,
`validate`. -/
structure ValidatorSchema (T : Type) : Type where
  safeParse : Option (T → SafeParseResult T)
  parse : Option (T → Except JsError T)
  validate : Option (T → ValidateResult T)

/-- Models `JSON.stringify` applied to the optional error value a schema
reports (a string in this model; an absent value stringifies through the
template literal as `undefined`). -/
def jsonStringifyErr : Option String → String
  | some s => "\"" ++ s ++ "\""
  | none => "undefined"

/-- Model of `validatePayload` (source lines 921-935): probe `safeParse`,
then `parse`, then `validate`; a schema with none of the three accepts
everything. -/
def validatePayload {T : Type} (schema : ValidatorSchema T) (data : T) : Except JsError Unit :=
  match schema.safeParse with
  | some sp =>
    let r := sp data
    if r.success then .ok ()
    else .error ⟨"Validation Error: " ++ jsonStringifyErr r.error⟩
  | none =>
    match schema.parse with
    | some p => (p data).map (fun _ => ())
    | none =>
      match schema.validate with
      | some v =>
        match (v data).error with
        | some e => .error ⟨"Validation Error: " ++ e⟩
        | none => .ok ()
      | none => .ok ()

/-- The HTTP verbs of the controller API. -/
inductive HttpMethod : Type where
  | GET
  | POST
  | PUT
  | PATCH
  | DELETE
deriving DecidableEq

/-- The verb name as it appears in error messages. -/
def methodStr : HttpMethod → String
  | .GET => "GET"
  | .POST => "POST"
  | .PUT => "PUT"
  | .PATCH => "PATCH"
  | .DELETE => "DELETE"

/-! ## Trie node and router state -/

/-- Model of the `NodeType` enum. It is recorded on nodes but never read by
the routing logic. -/
inductive NodeType : Type where
  | static
  | param
  | wildcard
deriving DecidableEq

mutual

/-- Model of `TrieNode` (source lines 601-620). `children` is the
insertion-ordered `Map` of static children (`ChildMap` is the
insertion-ordered association list, spelled as its own inductive so that
all tree recursions are structural and executable); `paramChild` and
`wildcardChild` are the optional sole parametric/wildcard children
(`OptNode` is `Option` for the same reason); `controllers` the per-verb
`Map`. -/
inductive TrieNode (T : Type) : Type where
  | mk (ntype : NodeType) (segment : String) (pattern : Option SegmentPattern)
      (paramName : Option String) (children : ChildMap T)
      (paramChild : OptNode T) (wildcardChild : OptNode T)
      (handler : Option (EventHandler T)) (controllers : List (HttpMethod × Controller T))
      (middleware : List (Middleware T)) (guards : List (Guard T))
      (schema : Option (ValidatorSchema T)) (isEndpoint : Bool)

inductive ChildMap (T : Type) : Type where
  | nil
  | cons (key : String) (node : TrieNode T) (rest : ChildMap T)

inductive OptNode (T : Type) : Type where
  | none
  | some (n : TrieNode T)

end

/-- `ChildMap` as the association list it models. -/
def ChildMap.toList {T : Type} : ChildMap T → List (String × TrieNode T)
  | .nil => []
  | .cons k n rest => (k, n) :: rest.toList

/-- `OptNode` as the option it models. -/
def OptNode.toOption {T : Type} : OptNode T → Option (TrieNode T)
  | .none => Option.none
  | .some n => Option.some n

/-- `Map.prototype.get` on the static-children map. -/
def ChildMap.find {T : Type} : ChildMap T → String → OptNode T
  | .nil, _ => .none
  | .cons k' n rest, k => if k' = k then .some n else rest.find k

/-- `Map.prototype.set` on the static-children map: an existing key keeps
its position and gets the new node, a fresh key is appended. -/
def ChildMap.set {T : Type} : ChildMap T → String → TrieNode T → ChildMap T
  | .nil, k, v => .cons k v .nil
  | .cons k' n rest, k, v =>
    if k' = k then .cons k v rest else .cons k' n (rest.set k v)

/-- `getOrDefault` on an optional child. -/
def OptNode.getD {T : Type} : OptNode T → TrieNode T → TrieNode T
  | .none, d => d
  | .some n, _ => n

def TrieNode.ntype {T : Type} : TrieNode T → NodeType
  | .mk a _ _ _ _ _ _ _ _ _ _ _ _ => a

def TrieNode.segment {T : Type} : TrieNode T → String
  | .mk _ a _ _ _ _ _ _ _ _ _ _ _ => a

def TrieNode.pattern {T : Type} : TrieNode T → Option SegmentPattern
  | .mk _ _ a _ _ _ _ _ _ _ _ _ _ => a

def TrieNode.paramName {T : Type} : TrieNode T → Option String
  | .mk _ _ _ a _ _ _ _ _ _ _ _ _ => a

def TrieNode.children {T : Type} : TrieNode T → ChildMap T
  | .mk _ _ _ _ a _ _ _ _ _ _ _ _ => a

def TrieNode.paramChild {T : Type} : TrieNode T → OptNode T
  | .mk _ _ _ _ _ a _ _ _ _ _ _ _ => a

def TrieNode.wildcardChild {T : Type} : TrieNode T → OptNode T
  | .mk _ _ _ _ _ _ a _ _ _ _ _ _ => a

def TrieNode.handler {T : Type} : TrieNode T → Option (EventHandler T)
  | .mk _ _ _ _ _ _ _ a _ _ _ _ _ => a

def TrieNode.controllers {T : Type} : TrieNode T → List (HttpMethod × Controller T)
  | .mk _ _ _ _ _ _ _ _ a _ _ _ _ => a

def TrieNode.middleware {T : Type} : TrieNode T → List (Middleware T)
  | .mk _ _ _ _ _ _ _ _ _ a _ _ _ => a

def TrieNode.guards {T : Type} : TrieNode T → List (Guard T)
  | .mk _ _ _ _ _ _ _ _ _ _ a _ _ => a

def TrieNode.schema {T : Type} : TrieNode T → Option (ValidatorSchema T)
  | .mk _ _ _ _ _ _ _ _ _ _ _ a _ => a

def TrieNode.isEndpoint {T : Type} : TrieNode T → Bool
  | .mk _ _ _ _ _ _ _ _ _ _ _ _ a => a

/-- A freshly constructed `TrieNode(segment, type)`. -/
def TrieNode.new {T : Type} (segment : String) (t : NodeType) : TrieNode T :=
  .mk t segment none none .nil .none .none none [] [] [] none false

/-! ## The LRU match cache -/

/-- Model of `SimpleLRU` (source lines 476-508): a capacity plus an
insertion-ordered `Map`, oldest entry first. -/
structure SimpleLRU (K V : Type) : Type where
  max : Nat
  cache : List (K × V)

/-- Model of `SimpleLRU.get`: on a hit whose value is *truthy* the entry is
deleted and re-appended (recency refresh); the JS `if (item)` guard skips
the refresh for falsy values such as the cached `null` no-match sentinel.
`truthy` supplies the JS truthiness of the stored value type. -/
def SimpleLRU.get {K V : Type} [DecidableEq K] (truthy : V → Bool)
    (l : SimpleLRU K V) (key : K) : Option V × SimpleLRU K V :=
  match objGet l.cache key with
  | none => (none, l)
  | some v =>
    if truthy v then (some v, ⟨l.max, objDelete l.cache key ++ [(key, v)]⟩)
    else (some v, l)

/-- Model of `SimpleLRU.set`: a present key is deleted first (recency
refresh); otherwise, at or above capacity, the first (oldest) entry is
evicted — on an empty map `keys().next().value` is `undefined` and the
delete is a no-op. The new entry is appended. -/
def SimpleLRU.set {K V : Type} [DecidableEq K] (l : SimpleLRU K V) (key : K) (v : V) :
    SimpleLRU K V :=
  let c :=
    if (objGet l.cache key).isSome then objDelete l.cache key
    else if l.max ≤ l.cache.length then l.cache.tail
    else l.cache
  ⟨l.max, c ++ [(key, v)]⟩

/-- Model of `SimpleLRU.clear`. -/
def SimpleLRU.clear {K V : Type} (l : SimpleLRU K V) : SimpleLRU K V :=
  ⟨l.max, []⟩

/-! ## Router state and registration -/

/-- Model of `RouteMatch` (source lines 583-589). -/
structure RouteMatch (T : Type) : Type where
  handler : EventHandler T
  params : List (String × ParamValue)
  middleware : List (Middleware T)
  guards : List (Guard T)
  schema : Option (ValidatorSchema T)

/-- The anonymous record returned by `matchController` (source lines
966-998). -/
structure ControllerMatch (T : Type) : Type where
  controller : Controller T
  params : List (String × ParamValue)
  middleware : List (Middleware T)
  guards : List (Guard T)
  schema : Option (ValidatorSchema T)

/-- Model of `EventRouter`'s instance state (source lines 626-642). -/
structure EventRouter (T : Type) : Type where
  root : TrieNode T
  globalMiddleware : List (Middleware T)
  globalGuards : List (Guard T)
  delimiter : String
  matchCache : SimpleLRU String (Option (RouteMatch T))

/-- `new EventRouter(delimiter)`: fresh root, empty global lists, an empty
LRU cache with capacity 1000. -/
def EventRouter.make (T : Type) (delim : String) : EventRouter T :=
  ⟨TrieNode.new "" .static, [], [], delim, ⟨1000, []⟩⟩

/-- `new EventRouter()` with the default `":"` delimiter. -/
def EventRouter.empty (T : Type) : EventRouter T :=
  EventRouter.make T ":"

/-- Model of `parseChannel` (source lines 1000-1002): split on the delimiter
and drop empty segments. -/
def chanSplit (delim channel : String) : List String :=
  ((jsSplit delim.data channel.data).map String.mk).filter (fun s => decide (0 < s.length))

def EventRouter.parseChannel {T : Type} (r : EventRouter T) (channel : String) : List String :=
  chanSplit r.delimiter channel

/-- The `Omit<RouteConfig, "handler">` options record: optional middleware,
guards and schema. -/
structure RouteConfig (T : Type) : Type where
  middleware : Option (List (Middleware T))
  guards : Option (List (Guard T))
  schema : Option (ValidatorSchema T)

/-- The all-absent options record (a call with no `config` argument). -/
def RouteConfig.none (T : Type) : RouteConfig T :=
  ⟨Option.none, Option.none, Option.none⟩

/-- Functional form of the registration walk: `insertSegment` (source lines
1157-1190) applied along `segs`, then `upd` applied to the terminal node.
Mirrors the source's in-place mutation by rebuilding the path: a `*` segment
becomes/reuses the sole wildcard child; a segment the pattern compiler
recognizes becomes/reuses the sole parametric child (an existing parametric
child keeps its original pattern — first registration wins); a legacy
`:name` segment likewise; anything else is a static child keyed by the
exact segment. -/
def insertPath {T : Type} (upd : TrieNode T → TrieNode T) :
    TrieNode T → List String → TrieNode T
  | n, [] => upd n
  | n, seg :: rest =>
    match n with
    | .mk t s p pn ch pc wc h ctr mw g sch e =>
      if seg = "*" then
        let child := wc.getD (TrieNode.new "*" NodeType.wildcard)
        .mk t s p pn ch pc (.some (insertPath upd child rest)) h ctr mw g sch e
      else
        match parseSegmentPattern seg with
        | some pat =>
          let child := pc.getD
            (.mk .param seg (some pat) none .nil .none .none none [] [] [] none false)
          .mk t s p pn ch (.some (insertPath upd child rest)) wc h ctr mw g sch e
        | none =>
          if startsWithColon seg then
            let child := pc.getD
              (.mk .param seg none (some (sliceOne seg)) .nil .none .none none [] [] [] none false)
            .mk t s p pn ch (.some (insertPath upd child rest)) wc h ctr mw g sch e
          else
            let child := (ch.find seg).getD (TrieNode.new seg NodeType.static)
            .mk t s p pn (ch.set seg (insertPath upd child rest)) pc wc h ctr mw g sch e

/-- The terminal-node update performed by `on` (source lines 662-666):
endpoint flag, handler, and middleware/guards/schema overwritten from the
options (`config?.middleware || []` etc.). -/
def finalizeOn {T : Type} (handler : EventHandler T) (cfg : RouteConfig T) :
    TrieNode T → TrieNode T
  | .mk t s p pn ch pc wc _ ctr _ _ _ _ =>
    .mk t s p pn ch pc wc (some handler) ctr (cfg.middleware.getD [])
      (cfg.guards.getD []) cfg.schema true

/-- Model of `on` (source lines 647-669): clear the match cache, walk/create
the path, finalize the terminal node. -/
def EventRouter.on {T : Type} (r : EventRouter T) (channel : String)
    (handler : EventHandler T) (cfg : RouteConfig T) : EventRouter T :=
  { r with
    matchCache := r.matchCache.clear
    root := insertPath (finalizeOn handler cfg) r.root (r.parseChannel channel) }

/-- The terminal-node update performed by `registerController` (source lines
952-961): endpoint flag, the verb entry, schema overwritten
(`node.schema = config?.schema`), and middleware/guards appended only when
provided. -/
def finalizeController {T : Type} (method : HttpMethod) (controller : Controller T)
    (cfg : RouteConfig T) : TrieNode T → TrieNode T
  | .mk t s p pn ch pc wc h ctr mw g _ _ =>
    .mk t s p pn ch pc wc h (objSet ctr method controller)
      (match cfg.middleware with
       | some l => mw ++ l
       | none => mw)
      (match cfg.guards with
       | some l => g ++ l
       | none => g)
      cfg.schema true

/-- Model of `registerController` (source lines 937-964). -/
def EventRouter.registerController {T : Type} (r : EventRouter T) (channel : String)
    (method : HttpMethod) (controller : Controller T) (cfg : RouteConfig T) : EventRouter T :=
  { r with
    matchCache := r.matchCache.clear
    root := insertPath (finalizeController method controller cfg) r.root
      (r.parseChannel channel) }

/-- `router.get(channel, controller, config?)`. -/
def EventRouter.get {T : Type} (r : EventRouter T) (channel : String)
    (controller : Controller T) (cfg : RouteConfig T) : EventRouter T :=
  r.registerController channel .GET controller cfg

/-- `router.post(channel, controller, config?)`. -/
def EventRouter.post {T : Type} (r : EventRouter T) (channel : String)
    (controller : Controller T) (cfg : RouteConfig T) : EventRouter T :=
  r.registerController channel .POST controller cfg

/-- `router.put(channel, controller, config?)`. -/
def EventRouter.put {T : Type} (r : EventRouter T) (channel : String)
    (controller : Controller T) (cfg : RouteConfig T) : EventRouter T :=
  r.registerController channel .PUT controller cfg

/-- `router.patch(channel, controller, config?)`. -/
def EventRouter.patch {T : Type} (r : EventRouter T) (channel : String)
    (controller : Controller T) (cfg : RouteConfig T) : EventRouter T :=
  r.registerController channel .PATCH controller cfg

/-- `router.delete(channel, controller, config?)`. -/
def EventRouter.delete {T : Type} (r : EventRouter T) (channel : String)
    (controller : Controller T) (cfg : RouteConfig T) : EventRouter T :=
  r.registerController channel .DELETE controller cfg

/-- Model of `use` (source lines 743-746): push a global middleware. -/
def EventRouter.use {T : Type} (r : EventRouter T) (mw : Middleware T) : EventRouter T :=
  { r with globalMiddleware := r.globalMiddleware ++ [mw] }

/-- Model of `guard` (source lines 751-754): push a global guard. -/
def EventRouter.guard {T : Type} (r : EventRouter T) (g : Guard T) : EventRouter T :=
  { r with globalGuards := r.globalGuards ++ [g] }

mutual

/-- Model of `deepMergeNode` (source lines 1326-1366), by structural
recursion on the source subtree: endpoint data is copied/concatenated onto
the target when the source is an endpoint, then static children are merged
pairwise (creating missing targets), then the parametric child (a missing
target parametric child is created with the source's segment, pattern and
parameter name), then the wildcard child. -/
def deepMergeNode {T : Type} (target : TrieNode T) : TrieNode T → TrieNode T
  | .mk _ _ _ _ sch2 spc swc sh sctr smw sg ssch se =>
    let t1 : TrieNode T :=
      if se then
        match target with
        | .mk t s p pn ch pc wc _ ctr mw g _ _ =>
          .mk t s p pn ch pc wc sh
            (sctr.foldl (fun acc kv => objSet acc kv.1 kv.2) ctr)
            (mw ++ smw) (g ++ sg) ssch true
      else target
    let t2 : TrieNode T := deepMergeChildren t1 sch2
    let t3 : TrieNode T :=
      match spc with
      | .some sp =>
        match t2 with
        | .mk t s p pn ch pc wc h ctr mw g sch e =>
          let tgt := pc.getD
            (.mk .param sp.segment sp.pattern sp.paramName .nil .none .none none [] [] [] none
              false)
          .mk t s p pn ch (.some (deepMergeNode tgt sp)) wc h ctr mw g sch e
      | .none => t2
    match swc with
    | .some sw =>
      match t3 with
      | .mk t s p pn ch pc wc h ctr mw g sch e =>
        let tgt := wc.getD (TrieNode.new "*" NodeType.wildcard)
        .mk t s p pn ch pc (.some (deepMergeNode tgt sw)) h ctr mw g sch e
    | .none => t3

/-- The `for (const [key, sourceChild] of source.children)` loop of
`deepMergeNode`, folding the target through the source's static children. -/
def deepMergeChildren {T : Type} (target : TrieNode T) : ChildMap T → TrieNode T
  | .nil => target
  | .cons key sourceChild rest =>
    let target2 :=
      match target with
      | .mk t s p pn ch pc wc h ctr mw g sch e =>
        let tgt := (ch.find key).getD (TrieNode.new key NodeType.static)
        .mk t s p pn (ch.set key (deepMergeNode tgt sourceChild)) pc wc h ctr mw g sch e
    deepMergeChildren target2 rest

end

/-- Model of `merge` (source lines 759-770): clear the cache, splice the
other router's trie under the (possibly empty) parsed path — `mergeNode`
walks the path with `insertSegment` and then deep-merges, which is exactly
`insertPath` with a `deepMergeNode` finalizer — and append the other
router's global middleware and guards. -/
def EventRouter.merge {T : Type} (r : EventRouter T) (other : EventRouter T)
    (pfx : String) : EventRouter T :=
  let pfxSegs := if pfx = "" then [] else chanSplit r.delimiter pfx
  { r with
    matchCache := r.matchCache.clear
    root := insertPath (fun n => deepMergeNode n other.root) r.root pfxSegs
    globalMiddleware := r.globalMiddleware ++ other.globalMiddleware
    globalGuards := r.globalGuards ++ other.globalGuards }

/-! ## The iterative matcher -/

mutual

/-- Number of nodes of a subtree (used only to bound the matcher's loop). -/
def TrieNode.size {T : Type} : TrieNode T → Nat
  | .mk _ _ _ _ ch pc wc _ _ _ _ _ _ => 1 + ch.size + pc.size + wc.size

def ChildMap.size {T : Type} : ChildMap T → Nat
  | .nil => 0
  | .cons _ n rest => n.size + rest.size

def OptNode.size {T : Type} : OptNode T → Nat
  | .none => 0
  | .some n => n.size

end

/-- The parametric-child test of the matcher's phase 1 (source lines
1247-1264): a compiled pattern extracts and coerces captures into a copy of
the snapshot; a legacy simple parameter accepts the whole segment as a
string; a parametric node with neither pattern nor name never matches. -/
def tryParamMatch {T : Type} (p : TrieNode T) (segment : String)
    (snap : List (String × ParamValue)) : Option (List (String × ParamValue)) :=
  match p.pattern with
  | some pat => (extractParamsFromSegment segment pat).map (fun ext => objAssign snap ext)
  | none =>
    match p.paramName with
    | some nm => some (objSet snap nm (.str segment))
    | none => none

/-- A stack frame of `matchSegmentsIterative`: current node, index of the
next segment, the params snapshot accumulated along this path, and the
phase counter. -/
structure MFrame (T : Type) : Type where
  node : TrieNode T
  index : Nat
  snap : List (String × ParamValue)
  phase : Nat

/-- The `while` loop of `matchSegmentsIterative` (source lines 1212-1290),
one loop iteration per fuel unit. Because the loop destructures
`const { node, index, phase } = current` *before* mutating `current.phase`,
exactly one phase block can run per iteration, and when that block neither
pushes nor returns, control falls through to the final `stack.pop()`. So:
a frame entered at phase 0 pushes the static child (re-entering later at
phase 1) or is popped; at phase 1 it pushes a matching parametric child
(re-entering at phase 2) or is popped; at phase 2 it returns the wildcard
child (which must be a registered endpoint, and consumes all remaining
segments) or is popped. A frame whose index has consumed all segments
returns its node if it is an endpoint and is popped otherwise; on success
the returned params are the frame's snapshot assigned into the caller's
empty params record. -/
def matchLoop {T : Type} (segments : List String) :
    Nat → List (MFrame T) → Option (TrieNode T × List (String × ParamValue))
  | 0, _ => none
  | _ + 1, [] => none
  | fuel + 1, fr :: rest =>
    if fr.index = segments.length then
      if fr.node.isEndpoint then some (fr.node, fr.snap)
      else matchLoop segments fuel rest
    else
      let segment := segments.getD fr.index ""
      match fr.phase with
      | 0 =>
        match fr.node.children.find segment with
        | .some c =>
          matchLoop segments fuel
            (⟨c, fr.index + 1, fr.snap, 0⟩ :: ⟨fr.node, fr.index, fr.snap, 1⟩ :: rest)
        | .none => matchLoop segments fuel rest
      | 1 =>
        match fr.node.paramChild with
        | .some p =>
          match tryParamMatch p segment fr.snap with
          | some snap2 =>
            matchLoop segments fuel
              (⟨p, fr.index + 1, snap2, 0⟩ :: ⟨fr.node, fr.index, fr.snap, 2⟩ :: rest)
          | none => matchLoop segments fuel rest
        | .none => matchLoop segments fuel rest
      | 2 =>
        match fr.node.wildcardChild with
        | .some w =>
          if w.isEndpoint then some (w, fr.snap) else matchLoop segments fuel rest
        | .none => matchLoop segments fuel rest
      | _ => matchLoop segments fuel rest

/-- Model of `matchSegmentsIterative` (source lines 1196-1293). The source's
unbounded `while` loop is run with a fuel that provably dominates the
number of loop iterations (`matchLoop_eq_stackSpec` below shows any fuel at
least the stack measure computes the loop's limit, and this fuel does). -/
def matchSegmentsIterative {T : Type} (root : TrieNode T) (segments : List String) :
    Option (TrieNode T × List (String × ParamValue)) :=
  matchLoop segments (3 + 10 * root.size) [⟨root, 0, [], 0⟩]

/-! ## Matching, dispatch and introspection -/

/-- The cache-free part of `match` (source lines 877-898): parse the
channel, run the iterative matcher, and require an endpoint node carrying a
plain handler. -/
def EventRouter.computeMatch {T : Type} (r : EventRouter T) (channel : String) :
    Option (RouteMatch T) :=
  match matchSegmentsIterative r.root (r.parseChannel channel) with
  | none => none
  | some (node, params) =>
    if node.isEndpoint = false then none
    else
      match node.handler with
      | none => none
      | some h => some ⟨h, params, node.middleware, node.guards, node.schema⟩

/-- Model of `match` (source lines 871-899): consult the LRU cache first
(any cached value, including the `null` no-match sentinel, is returned);
on a miss compute the result and store it (also when negative). -/
def EventRouter.match {T : Type} (r : EventRouter T) (channel : String) :
    Option (RouteMatch T) × EventRouter T :=
  let gc := r.matchCache.get (fun v => v.isSome) channel
  match gc.1 with
  | some v => (v, { r with matchCache := gc.2 })
  | none =>
    let res := r.computeMatch channel
    (res, { r with matchCache := gc.2.set channel res })

/-- Model of `has` (source lines 904-906). -/
def EventRouter.has {T : Type} (r : EventRouter T) (channel : String) :
    Bool × EventRouter T :=
  let m := r.match channel
  (m.1.isSome, m.2)

/-- Model of `matchController` (source lines 966-998): no caching, endpoint
required, then the per-verb controller looked up (a plain handler is not
required). -/
def EventRouter.matchController {T : Type} (r : EventRouter T) (channel : String)
    (method : HttpMethod) : Option (ControllerMatch T) :=
  match matchSegmentsIterative r.root (r.parseChannel channel) with
  | none => none
  | some (node, params) =>
    if node.isEndpoint = false then none
    else
      match objGet node.controllers method with
      | none => none
      | some c => some ⟨c, params, node.middleware, node.guards, node.schema⟩

mutual

/-- Model of `collectRoutes` (source lines 1368-1392): a registered endpoint
contributes the joined path; then static children in map order (each keyed
segment appended), then the parametric child (its stored segment appended),
then the wildcard child (the literal `*` appended). -/
def collectRoutes {T : Type} (delim : String) (path : List String) : TrieNode T → List String
  | .mk _ _ _ _ ch pc wc _ _ _ _ _ e =>
    (if e then [jsJoin delim path] else []) ++
      collectRoutesChildren delim path ch ++
      (match pc with
       | .some p => collectRoutes delim (path ++ [p.segment]) p
       | .none => []) ++
      (match wc with
       | .some w => collectRoutes delim (path ++ ["*"]) w
       | .none => [])

def collectRoutesChildren {T : Type} (delim : String) (path : List String) :
    ChildMap T → List String
  | .nil => []
  | .cons key child rest =>
    collectRoutes delim (path ++ [key]) child ++ collectRoutesChildren delim path rest

end

/-- Model of `getRoutes` (source lines 911-915). -/
def EventRouter.getRoutes {T : Type} (r : EventRouter T) : List String :=
  collectRoutes r.delimiter [] r.root

/-- The guard loop shared by `emit` (source lines 800-806) and `execute`
(source lines 843-849): each guard is awaited in order; the first `false`
aborts with the given error. -/
def runGuardLoop {T : Type} (e : JsError) (ctx : EventContext T) :
    List (Guard T) → DispM T Unit
  | [] => pure ()
  | g :: gs => do
    let allowed ← g ctx
    if allowed then runGuardLoop e ctx gs else throw e

/-- The recursive `next` closure of `executeMiddlewareChain` (source lines
1300-1309), reading and incrementing the shared mutable `index`. The fuel
only bounds the nesting depth of `next` activations; since the shared index
strictly increases before every nested middleware call, a depth of
`middleware.length + 1` is never exceeded, so the fuel supplied by
`executeMiddlewareChain` is exact. -/
def chainNext {T : Type} (mws : List (Middleware T)) (handler : EventHandler T)
    (ctx : EventContext T) : Nat → DispM T Unit
  | 0 => pure ()
  | fuel + 1 => do
    let st ← get
    if h : st.index < mws.length then
      set { st with index := st.index + 1 }
      mws.get ⟨st.index, h⟩ ctx (chainNext mws handler ctx fuel)
    else
      handler ctx

/-- Model of `executeMiddlewareChain` (source lines 1295-1312): a fresh
`index` cursor, then `next()`. -/
def executeMiddlewareChain {T : Type} (ctx : EventContext T) (mws : List (Middleware T))
    (handler : EventHandler T) : DispM T Unit := do
  modify (fun s => { s with index := 0 })
  chainNext mws handler ctx (mws.length + 1)

/-- `generateUUID` (source lines 1394-1404) draws from `Math.random`; the
router never branches on the produced trace id, so it is modelled as the
generator's template placeholder. -/
def generateUUID : String :=
  "xxxxxxxx-xxxx-4xxx-yxxx-xxxxxxxxxxxx"

/-- `metadata?.traceId || this.generateUUID()` — an absent or empty (falsy)
trace id is replaced by a generated one. -/
def jsTraceId (md : Option (List (String × String))) : String :=
  match md with
  | none => generateUUID
  | some m =>
    match objGet m "traceId" with
    | some s => if s = "" then generateUUID else s
    | none => generateUUID

/-- Model of `emit` (source lines 775-811): match (with its cache side
effect on the router), throw on no match; then, as one dispatch
computation: schema validation when a schema is present, the context with
extracted params and trace id, all guards (global first, then route-local),
then the middleware chain (global first, then route-local) around the plain
handler. -/
def EventRouter.emit {T : Type} (r : EventRouter T) (channel : String) (event : T)
    (metadata : Option (List (String × String))) : DispM T Unit × EventRouter T :=
  let mr := r.match channel
  match mr.1 with
  | none => (throw ⟨"No handler found for channel: " ++ channel⟩, mr.2)
  | some mt =>
    (do
      match mt.schema with
      | some sch => liftE (validatePayload sch event)
      | none => pure ()
      let ctx : EventContext T :=
        ⟨channel, mt.params, event, metadata, jsTraceId metadata⟩
      runGuardLoop ⟨"Guard rejected event for channel: " ++ channel⟩ ctx
        (mr.2.globalGuards ++ mt.guards)
      executeMiddlewareChain ctx (mr.2.globalMiddleware ++ mt.middleware) mt.handler,
     mr.2)

/-- Model of `execute` (source lines 816-865): controller lookup (uncached,
so the router state is unchanged), throw on no controller for the verb;
schema validation; guards; then either the plain controller value returned
directly (no middleware chain at all), or the middleware chain around a
wrapper capturing the controller's result, which is returned (and is
`none`, i.e. `undefined`, when the chain short-circuits). -/
def EventRouter.execute {T : Type} (r : EventRouter T) (method : HttpMethod)
    (channel : String) (event : T) (metadata : Option (List (String × String))) :
    DispM T (Option T) :=
  match r.matchController channel method with
  | none => throw ⟨"No " ++ methodStr method ++ " controller found for channel: " ++ channel⟩
  | some mt => do
    match mt.schema with
    | some sch => liftE (validatePayload sch event)
    | none => pure ()
    let ctx : EventContext T :=
      ⟨channel, mt.params, event, metadata, jsTraceId metadata⟩
    runGuardLoop ⟨"Guard rejected " ++ methodStr method ++ " for channel: " ++ channel⟩ ctx
      (r.globalGuards ++ mt.guards)
    match mt.controller with
    | .val v => pure (some v)
    | .fnc f => do
      modify (fun s => { s with result := none })
      executeMiddlewareChain ctx (r.globalMiddleware ++ mt.middleware)
        (fun c => do
          let v ← f c
          modify (fun s => { s with result := some v }))
      let st ← MonadState.get
      pure st.result

/-! ## LRU cache facts (claim C4) -/

/-- One client operation on a `SimpleLRU`. -/
inductive LruOp (K V : Type) : Type where
  | getOp (k : K)
  | setOp (k : K) (v : V)

/-- Run one operation (the state part; `get` results are discarded). -/
def lruStep {K V : Type} [DecidableEq K] (truthy : V → Bool) (l : SimpleLRU K V) :
    LruOp K V → SimpleLRU K V
  | .getOp k => (l.get truthy k).2
  | .setOp k v => l.set k v

/-- Run a sequence of operations. -/
def lruRunList {K V : Type} [DecidableEq K] (truthy : V → Bool) (l : SimpleLRU K V)
    (ops : List (LruOp K V)) : SimpleLRU K V :=
  ops.foldl (lruStep truthy) l

theorem objDelete_length_of_mem {κ α : Type u} [DecidableEq κ] (l : List (κ × α)) (k : κ)
    (h : (objGet l k).isSome) : (objDelete l k).length + 1 = l.length := by
  induction l with
  | nil => simp [objGet] at h
  | cons hd tl ih =>
    by_cases hk : hd.1 = k
    · simp [objDelete, hk]
    · simp [objGet, hk] at h
      simp [objDelete, hk, ih h]

theorem lru_get_length {K V : Type} [DecidableEq K] (truthy : V → Bool)
    (l : SimpleLRU K V) (k : K) :
    ((l.get truthy k).2).cache.length = l.cache.length := by
  unfold SimpleLRU.get
  cases hg : objGet l.cache k with
  | none => simp
  | some v =>
    by_cases ht : truthy v
    · have := objDelete_length_of_mem l.cache k (by simp [hg])
      simp [ht]
      omega
    · simp [ht]

theorem lru_get_max {K V : Type} [DecidableEq K] (truthy : V → Bool)
    (l : SimpleLRU K V) (k : K) : ((l.get truthy k).2).max = l.max := by
  unfold SimpleLRU.get
  cases hg : objGet l.cache k with
  | none => simp
  | some v =>
    by_cases ht : truthy v
    · simp [ht]
    · simp [ht]

theorem lru_set_length_le {K V : Type} [DecidableEq K]
    (l : SimpleLRU K V) (k : K) (v : V) (hmax : 1 ≤ l.max)
    (hlen : l.cache.length ≤ l.max) : (l.set k v).cache.length ≤ l.max := by
  unfold SimpleLRU.set
  by_cases hk : (objGet l.cache k).isSome
  · have := objDelete_length_of_mem l.cache k hk
    simp [hk]
    omega
  · by_cases hfull : l.max ≤ l.cache.length
    · have hne : l.cache.length ≠ 0 := by omega
      simp [hk, hfull]
      cases hc : l.cache with
      | nil => simp [hc] at hne
      | cons a tl => simp [hc] at hlen ⊢; omega
    · simp [hk, hfull]
      omega

theorem lru_set_max {K V : Type} [DecidableEq K] (l : SimpleLRU K V) (k : K) (v : V) :
    (l.set k v).max = l.max := by
  unfold SimpleLRU.set
  simp

theorem lruStep_length_le {K V : Type} [DecidableEq K] (truthy : V → Bool)
    (l : SimpleLRU K V) (op : LruOp K V) (hmax : 1 ≤ l.max)
    (hlen : l.cache.length ≤ l.max) : (lruStep truthy l op).cache.length ≤ (lruStep truthy l op).max := by
  cases op with
  | getOp k =>
    simp only [lruStep]
    rw [lru_get_length, lru_get_max]
    exact hlen
  | setOp k v =>
    simp only [lruStep]
    rw [lru_set_max]
    exact lru_set_length_le l k v hmax hlen

theorem lruStep_max {K V : Type} [DecidableEq K] (truthy : V → Bool)
    (l : SimpleLRU K V) (op : LruOp K V) : (lruStep truthy l op).max = l.max := by
  cases op with
  | getOp k => simp only [lruStep]; exact lru_get_max truthy l k
  | setOp k v => simp only [lruStep]; exact lru_set_max l k v

theorem lruRunList_length_le {K V : Type} [DecidableEq K] (truthy : V → Bool)
    (ops : List (LruOp K V)) (l : SimpleLRU K V) (hmax : 1 ≤ l.max)
    (hlen : l.cache.length ≤ l.max) :
    (lruRunList truthy l ops).cache.length ≤ l.max := by
  induction ops generalizing l with
  | nil => exact hlen
  | cons op rest ih =>
    have h1 := lruStep_length_le truthy l op hmax hlen
    have h2 := lruStep_max truthy l op
    simp only [lruRunList, List.foldl_cons] at *
    exact (h2 ▸ ih (lruStep truthy l op) (h2 ▸ hmax) (h2 ▸ h1))

/-- Claim C4, counterexample. The claim states that a `get` hit refreshes the
key's recency *including* when the cached value is the negative "no match"
sentinel (`null`, modelled as `none`). In the code, `get`'s refresh is
guarded by JS truthiness (`if (item)`), which is false for `null`: on a
capacity-2 cache holding the negative entry `"a"` (oldest) and a positive
entry `"b"`, `get "a"` is a genuine hit returning the sentinel, yet the
cache order is unchanged (not refreshed to `[b, a]` as the claim requires),
and a subsequent over-capacity `set` evicts `"a"` rather than `"b"`. -/
theorem claim_C4_counterexample :
    ((SimpleLRU.get (fun v => v.isSome) ⟨2, [("a", none), ("b", some 1)]⟩ "a").1
        = some (Option.none (α := Nat))) ∧
    ((SimpleLRU.get (fun v => v.isSome) ⟨2, [("a", none), ("b", some 1)]⟩ "a").2.cache
        = [("a", (none : Option Nat)), ("b", some 1)]) ∧
    ¬((SimpleLRU.get (fun v => v.isSome) ⟨2, [("a", none), ("b", some 1)]⟩ "a").2.cache
        = [("b", some 1), ("a", (none : Option Nat))]) ∧
    (((SimpleLRU.get (fun v => v.isSome) ⟨2, [("a", none), ("b", some 1)]⟩ "a").2.set
          "c" (some 2)).cache
        = [("b", (some 1 : Option Nat)), ("c", some 2)]) := by
  decide

/-- Claim C4, amended: at the router's instantiation of `SimpleLRU`
(string channel keys, `RouteMatch | null` values, JS truthiness =
`isSome`), the cache is a strict-capacity LRU for any positive capacity:
(1) starting empty, no operation sequence ever exceeds the capacity;
(2) a `get` hit on a *truthy* (positive) value refreshes that key's
recency by moving it to the back;
(3) a `get` hit on the falsy negative sentinel returns it *without*
refreshing recency (this is where the original claim fails);
(4) an over-capacity `set` of an absent key evicts exactly the entry at
the front of the order, i.e. the least recently inserted-or-refreshed
entry. -/
theorem claim_C4_amended (T : Type) :
    (∀ (max : Nat) (ops : List (LruOp String (Option (RouteMatch T)))), 1 ≤ max →
      (lruRunList (fun v => v.isSome) ⟨max, []⟩ ops).cache.length ≤ max) ∧
    (∀ (l : SimpleLRU String (Option (RouteMatch T))) (k : String)
        (v : Option (RouteMatch T)), objGet l.cache k = some v → v.isSome = true →
      l.get (fun v => v.isSome) k = (some v, ⟨l.max, objDelete l.cache k ++ [(k, v)]⟩)) ∧
    (∀ (l : SimpleLRU String (Option (RouteMatch T))) (k : String)
        (v : Option (RouteMatch T)), objGet l.cache k = some v → v.isSome = false →
      l.get (fun v => v.isSome) k = (some v, l)) ∧
    (∀ (l : SimpleLRU String (Option (RouteMatch T))) (k : String)
        (v : Option (RouteMatch T)), objGet l.cache k = none →
        l.max ≤ l.cache.length →
      (l.set k v).cache = l.cache.tail ++ [(k, v)]) := by
  refine ⟨?_, ?_, ?_, ?_⟩
  · intro max ops hmax
    exact lruRunList_length_le _ ops ⟨max, []⟩ hmax (by simp)
  · intro l k v hget ht
    unfold SimpleLRU.get
    simp [hget, ht]
  · intro l k v hget ht
    unfold SimpleLRU.get
    simp [hget, ht]
  · intro l k v hget hfull
    unfold SimpleLRU.set
    simp [hget, hfull]

/-- Claim C4, witness: the amended theorem applied at concrete inputs. -/
theorem claim_C4_witness :
    (lruRunList (fun v => v.isSome) ⟨2, []⟩
        [LruOp.setOp "a" (Option.none (α := RouteMatch Nat)), .setOp "b" none,
          .setOp "c" none, .getOp "a"]).cache.length ≤ 2 ∧
    (SimpleLRU.set (K := String) ⟨1, [("a", (none : Option (RouteMatch Nat)))]⟩
        "b" none).cache = [("b", none)] := by
  constructor
  · exact (claim_C4_amended Nat).1 2 _ (by omega)
  · exact ((claim_C4_amended Nat).2.2.2 ⟨1, [("a", none)]⟩ "b" none (by rfl) (by rfl)).trans
      (by rfl)

/-! ## Instrumented stages and dispatch runners used by the theorems -/

/-- A handler that records its tag. -/
def tagHandler (T : Type) (tag : String) : EventHandler T :=
  fun _ => logEv tag

/-- A middleware that records its tag and then calls `next` once. -/
def tagMw (T : Type) (tag : String) : Middleware T :=
  fun _ next => do
    logEv tag
    next

/-- A middleware that records its tag and never calls `next`. -/
def tagStopMw (T : Type) (tag : String) : Middleware T :=
  fun _ _ => logEv tag

/-- A guard that records its tag and returns the given verdict. -/
def tagGuard (T : Type) (tag : String) (b : Bool) : Guard T :=
  fun _ => do
    logEv tag
    pure b

/-- The initial dispatch state. -/
def dst0 (T : Type) : DSt T :=
  ⟨0, [], none⟩

/-- Run a dispatch computation from a state, yielding the outcome and the
final state. -/
def runDisp {T α : Type} (x : DispM T α) (s : DSt T) : Except JsError α × DSt T :=
  (x.run).run s

/-! ## Claim C10: what `merge` changes -/

/-- Claim C10, counterexample. The claim asserts that besides splicing
routes and appending the other router's global middleware/guards, *no
other router-level state is changed* by `merge`. But `merge` clears the
entire match cache (by design — the same spec requires it for cache
correctness): merging an empty router into a router whose cache holds the
negative entry for `"q"` leaves root and global lists unchanged yet empties
the cache. -/
theorem claim_C10_counterexample :
    ((((EventRouter.empty Nat).on "a" (tagHandler Nat "H")
          (RouteConfig.none Nat)).match "q").2.matchCache.cache.length = 1) ∧
    ((((((EventRouter.empty Nat).on "a" (tagHandler Nat "H")
          (RouteConfig.none Nat)).match "q").2).merge (EventRouter.empty Nat)
          "").root =
        ((((EventRouter.empty Nat).on "a" (tagHandler Nat "H")
          (RouteConfig.none Nat)).match "q").2).root) ∧
    ((((((EventRouter.empty Nat).on "a" (tagHandler Nat "H")
          (RouteConfig.none Nat)).match "q").2).merge (EventRouter.empty Nat)
          "").matchCache.cache.length = 0) ∧
    ¬((((((EventRouter.empty Nat).on "a" (tagHandler Nat "H")
          (RouteConfig.none Nat)).match "q").2).merge (EventRouter.empty Nat)
          "").matchCache.cache.length =
        ((((EventRouter.empty Nat).on "a" (tagHandler Nat "H")
          (RouteConfig.none Nat)).match "q").2).matchCache.cache.length) := by
  refine ⟨rfl, rfl, rfl, ?_⟩
  intro h
  have h2 : (0 : Nat) = 1 := h
  exact Nat.noConfusion h2

/-- Claim C10, amended: `merge(other, prefix)` splices the other router's
routes under the prefix and appends the other router's global middleware
and guards to this router's global lists, so that they execute on every
subsequent dispatch of this router — including routes registered before the
merge and outside the prefix (demonstrated by the dispatch trace clause:
the other router's guard `G` and middleware `M` run on the pre-merge route
`"a"` after merging under prefix `"v"`). Besides this, `merge` clears the
entire match cache; the delimiter (the only remaining router-level state)
is unchanged. -/
theorem claim_C10_amended :
    (∀ (T : Type) (r other : EventRouter T) (pfx : String),
      (r.merge other pfx).globalMiddleware = r.globalMiddleware ++ other.globalMiddleware ∧
      (r.merge other pfx).globalGuards = r.globalGuards ++ other.globalGuards ∧
      (r.merge other pfx).matchCache = ⟨r.matchCache.max, []⟩ ∧
      (r.merge other pfx).delimiter = r.delimiter) ∧
    (runDisp
        ((((EventRouter.empty Nat).on "a" (tagHandler Nat "H") (RouteConfig.none Nat)).merge
            (((EventRouter.empty Nat).use (tagMw Nat "M")).guard (tagGuard Nat "G" true))
            "v").emit "a" 0 none).1 (dst0 Nat) =
      (.ok (), ⟨1, ["G", "M", "H"], none⟩)) := by
  constructor
  · intro T r other pfx
    exact ⟨rfl, rfl, rfl, rfl⟩
  · rfl

/-! ## Static-path matching always succeeds (supporting lemmas for C1) -/

/-- Pure static descent: follow only static children along the segments. -/
def staticDescend {T : Type} : TrieNode T → List String → Option (TrieNode T)
  | n, [] => some n
  | n, s :: rest =>
    match n.children.find s with
    | .some c => staticDescend c rest
    | .none => none

theorem ChildMap.find_size_le {T : Type} :
    ∀ (ch : ChildMap T) (k : String) (c : TrieNode T),
      ch.find k = .some c → c.size ≤ ch.size
  | .nil, k, c, h => by simp [ChildMap.find] at h
  | .cons k' n rest, k, c, h => by
    by_cases hk : k' = k
    · simp [ChildMap.find, hk] at h
      simp [ChildMap.size, ← h]
    · simp [ChildMap.find, hk] at h
      have := ChildMap.find_size_le rest k c h
      simp [ChildMap.size]
      omega

theorem TrieNode.child_size_lt {T : Type} (n : TrieNode T) (k : String) (c : TrieNode T)
    (h : n.children.find k = .some c) : c.size < n.size := by
  cases n with
  | mk t s p pn ch pc wc hd ctr mw g sch e =>
    have := ChildMap.find_size_le ch k c h
    simp [TrieNode.size]
    omega

theorem TrieNode.size_pos {T : Type} (n : TrieNode T) : 1 ≤ n.size := by
  cases n with
  | mk t s p pn ch pc wc hd ctr mw g sch e => simp [TrieNode.size]; omega

theorem staticDescend_length_lt {T : Type} (segs : List String) (n m : TrieNode T)
    (h : staticDescend n segs = some m) : segs.length < n.size := by
  induction segs generalizing n with
  | nil => simpa using n.size_pos
  | cons s rest ih =>
    simp only [staticDescend] at h
    cases hf : n.children.find s with
    | none => rw [hf] at h; simp at h
    | some c =>
      rw [hf] at h
      have h1 := ih c h
      have h2 := n.child_size_lt s c hf
      simp only [List.length_cons]
      omega

/-- A full static path to a registered endpoint always wins: if pure static
descent along the (remaining) segments reaches an endpoint, the matcher
loop returns exactly that node with the current snapshot, regardless of the
frames below. -/
theorem matchLoop_static_path {T : Type} (segs : List String) :
    ∀ (fuel k : Nat) (n m : TrieNode T) (snap : List (String × ParamValue))
      (stack : List (MFrame T)),
      k ≤ segs.length →
      staticDescend n (segs.drop k) = some m → m.isEndpoint = true →
      segs.length - k < fuel →
      matchLoop segs fuel (⟨n, k, snap, 0⟩ :: stack) = some (m, snap) := by
  intro fuel
  induction fuel with
  | zero => intro k n m snap stack _ _ _ hf; omega
  | succ f ih =>
    intro k n m snap stack hkle hd he hf
    by_cases hk : k = segs.length
    · subst hk
      simp only [List.drop_length, staticDescend] at hd
      cases hd
      simp [matchLoop, he]
    · have hklt : k < segs.length := by omega
      rw [List.drop_eq_getElem_cons hklt] at hd
      simp only [staticDescend] at hd
      cases hfind : n.children.find (segs[k]) with
      | none => rw [hfind] at hd; simp at hd
      | some c =>
        rw [hfind] at hd
        have hseg : segs.getD k "" = segs[k] := List.getD_eq_getElem segs "" hklt
        simp only [matchLoop, if_neg hk, hseg, hfind]
        exact ih (k + 1) c m snap _ (by omega) hd he (by omega)

/-- A full static path to an endpoint carrying a handler is matched to
exactly that endpoint (with empty extracted params), siblings
notwithstanding: the cache-free traversal of `match`. -/
theorem staticPathWins {T : Type} (r : EventRouter T) (c : String) (m : TrieNode T)
    (h : EventHandler T) (hd : staticDescend r.root (r.parseChannel c) = some m)
    (he : m.isEndpoint = true) (hh : m.handler = some h) :
    r.computeMatch c = some ⟨h, [], m.middleware, m.guards, m.schema⟩ := by
  unfold EventRouter.computeMatch matchSegmentsIterative
  have hlen := staticDescend_length_lt _ _ _ hd
  rw [matchLoop_static_path (r.parseChannel c) (3 + 10 * r.root.size) 0 r.root m [] []
    (by omega) (by simpa using hd) he (by omega)]
  simp [he, hh]

/-- Claim C1: evaluation of the code at the decisive inputs. With both the
static route `a:b` (handler tag `S`) and the sibling parametric route
`a:[x]` (handler tag `P`) registered: (1) dispatching the exact static
channel `a:b` runs the static route's handler (`S`), never the parametric
one — the headline of the claim holds; but (2) `match("a:q")` returns
`null` even though (3, 4) the compiled parametric segment `[x]` matches the
segment `"q"` — the claimed search order ("static, then parametric, then
wildcard, first full match wins") would resolve `a:q` to the parametric
route. The matcher destructures `const { node, index, phase } = current`
before mutating `current.phase`, so when a node has no static child for the
current segment the frame falls through to `stack.pop()` and the parametric
child is never attempted. -/
theorem claim_C1_thm :
    (runDisp (((((EventRouter.empty Nat).on "a:b" (tagHandler Nat "S")
          (RouteConfig.none Nat)).on "a:[x]" (tagHandler Nat "P")
          (RouteConfig.none Nat)).emit "a:b" 0 none)).1 (dst0 Nat) =
      (.ok (), ⟨0, ["S"], none⟩)) ∧
    (((((EventRouter.empty Nat).on "a:b" (tagHandler Nat "S")
          (RouteConfig.none Nat)).on "a:[x]" (tagHandler Nat "P")
          (RouteConfig.none Nat)).match "a:q").1 = none) ∧
    ((parseSegmentPattern "[x]").isSome = true) ∧
    (extractParamsFromSegment "q" ((parseSegmentPattern "[x]").getD ⟨"", [], []⟩) =
      some [("x", ParamValue.str "q")]) := by
  exact ⟨by rfl, by rfl, by decide, by decide⟩

/-- Claim C7: evaluation of the code at the decisive inputs. The coercion
layer behaves exactly as claimed — (3) `coerceParamValue "42" number` is the
numeric 42, (4) `"abc"` stays a string, (5) the compiled `[id:number]`
pattern extracts `id = 42` from `"42"`, and (6) rejects `"abc"` outright —
but (1) `match("items:42")` on a router with only `items:[id:number]`
registered returns `null` (the matcher never attempts the parametric child
because the `items` node has no static child `"42"`; see `claim_C1_thm`),
so the claimed end-to-end behaviour `params.id === 42` is unreachable.
(2) `match("items:abc")` also returns `null`, as the claim says, though for
the same structural reason rather than the regex. -/
theorem claim_C7_thm :
    (((EventRouter.empty Nat).on "items:[id:number]" (tagHandler Nat "H")
          (RouteConfig.none Nat)).match "items:42").1 = none ∧
    (((EventRouter.empty Nat).on "items:[id:number]" (tagHandler Nat "H")
          (RouteConfig.none Nat)).match "items:abc").1 = none ∧
    (coerceParamValue "42" (some "number") = ParamValue.num 42) ∧
    (coerceParamValue "abc" (some "number") = ParamValue.str "abc") ∧
    (extractParamsFromSegment "42" ((parseSegmentPattern "[id:number]").getD ⟨"", [], []⟩) =
      some [("id", ParamValue.num 42)]) ∧
    (extractParamsFromSegment "abc" ((parseSegmentPattern "[id:number]").getD ⟨"", [], []⟩) =
      none) := by
  exact ⟨by rfl, by rfl, by decide, by decide, by decide, by decide⟩

/-- Any node returned by the matcher loop is a registered endpoint: both
return sites of the loop (all segments consumed, and the wildcard branch)
test `isEndpoint` first. -/
theorem matchLoop_isEndpoint {T : Type} (segs : List String) :
    ∀ (fuel : Nat) (stack : List (MFrame T)) (n : TrieNode T)
      (p : List (String × ParamValue)),
      matchLoop segs fuel stack = some (n, p) → n.isEndpoint = true := by
  intro fuel
  induction fuel with
  | zero => intro stack n p h; simp [matchLoop] at h
  | succ f ih =>
    intro stack n p h
    cases stack with
    | nil => simp [matchLoop] at h
    | cons fr rest =>
      obtain ⟨nd, idx, sn, ph⟩ := fr
      by_cases hidx : idx = segs.length
      · by_cases hend : nd.isEndpoint = true
        · simp [matchLoop, hidx, hend] at h
          rw [← h.1]
          exact hend
        · simp [matchLoop, hidx, hend] at h
          exact ih rest n p h
      · match ph with
        | 0 =>
          simp only [matchLoop, if_neg hidx] at h
          cases hf : nd.children.find (segs.getD idx "") with
          | none => simp only [hf] at h; exact ih _ n p h
          | some c => simp only [hf] at h; exact ih _ n p h
        | 1 =>
          simp only [matchLoop, if_neg hidx] at h
          cases hf : nd.paramChild with
          | none => simp only [hf] at h; exact ih _ n p h
          | some pc =>
            cases ht : tryParamMatch pc (segs.getD idx "") sn with
            | none => simp only [hf, ht] at h; exact ih _ n p h
            | some s2 => simp only [hf, ht] at h; exact ih _ n p h
        | 2 =>
          simp only [matchLoop, if_neg hidx] at h
          cases hf : nd.wildcardChild with
          | none => simp only [hf] at h; exact ih _ n p h
          | some w =>
            by_cases hw : w.isEndpoint = true
            · simp only [hf, if_pos hw, Option.some.injEq, Prod.mk.injEq] at h
              rw [← h.1]
              exact hw
            · simp only [hf, if_neg hw] at h
              exact ih _ n p h
        | (k + 3) =>
          simp only [matchLoop, if_neg hidx] at h
          exact ih _ n p h

/-- Claim C2, counterexample. Routes `a:b:c`, `a:[x]:d` and the wildcard
`a:*` are registered. The channel `a:b:r:s` has *two* segments (`r`, `s`)
remaining past the wildcard's depth, so by the claim it must not be matched
by the wildcard endpoint — yet it is: the static subtree under `b` and the
parametric subtree under `[x]` both fail, and the wildcard branch then
returns its endpoint consuming all remaining segments (the dispatch trace
`["W"]` identifies the wildcard route's handler, and the extracted params
are the parent's empty snapshot). -/
theorem claim_C2_counterexample :
    (((((((EventRouter.empty Nat).on "a:b:c" (tagHandler Nat "C")
          (RouteConfig.none Nat)).on "a:[x]:d" (tagHandler Nat "D")
          (RouteConfig.none Nat)).on "a:*" (tagHandler Nat "W")
          (RouteConfig.none Nat))).match "a:b:r:s").1.isSome = true) ∧
    (runDisp ((((((EventRouter.empty Nat).on "a:b:c" (tagHandler Nat "C")
          (RouteConfig.none Nat)).on "a:[x]:d" (tagHandler Nat "D")
          (RouteConfig.none Nat)).on "a:*" (tagHandler Nat "W")
          (RouteConfig.none Nat))).emit "a:b:r:s" 0 none).1 (dst0 Nat) =
      (.ok (), ⟨0, ["W"], none⟩)) := by
  exact ⟨by rfl, by rfl⟩

/-- Claim C2, amended: a wildcard child matches only when it is itself a
registered endpoint (clauses 1 and 3: every matched node is an endpoint,
and a phase-2 frame with a non-endpoint wildcard child is popped), it is
attempted only at phase 2 — i.e. only after the static child subtree and a
matching parametric child subtree at that node have been tried and failed —
and when attempted it matches *all* remaining segments: clause 2 returns
the wildcard endpoint with the parent's snapshot for an arbitrary frame
index strictly before the end of the segment list, however many segments
remain. -/
theorem claim_C2_amended :
    (∀ (T : Type) (segs : List String) (fuel : Nat) (stack : List (MFrame T)) n p,
      matchLoop segs fuel stack = some (n, p) → n.isEndpoint = true) ∧
    (∀ (T : Type) (segs : List String) (fuel : Nat) (fr : MFrame T)
        (rest : List (MFrame T)) (w : TrieNode T),
      fr.phase = 2 → ¬(fr.index = segs.length) → fr.node.wildcardChild = .some w →
      w.isEndpoint = true →
      matchLoop segs (fuel + 1) (fr :: rest) = some (w, fr.snap)) ∧
    (∀ (T : Type) (segs : List String) (fuel : Nat) (fr : MFrame T)
        (rest : List (MFrame T)) (w : TrieNode T),
      fr.phase = 2 → ¬(fr.index = segs.length) → fr.node.wildcardChild = .some w →
      w.isEndpoint = false →
      matchLoop segs (fuel + 1) (fr :: rest) = matchLoop segs fuel rest) := by
  refine ⟨fun T segs => matchLoop_isEndpoint segs, ?_, ?_⟩
  · intro T segs fuel fr rest w hph hidx hwc hw
    simp [matchLoop, hidx, hph, hwc, hw]
  · intro T segs fuel fr rest w hph hidx hwc hw
    simp [matchLoop, hidx, hph, hwc, hw]

/-- Claim C2, witness: the amended theorem's hypotheses discharged at a
concrete phase-2 frame with two remaining segments. -/
theorem claim_C2_witness :
    matchLoop ["x", "y"] 5
        [⟨TrieNode.mk NodeType.static "" none none .nil .none
            (.some (TrieNode.mk NodeType.wildcard "*" none none .nil .none .none
              (some (tagHandler Nat "W")) [] [] [] none true))
            none [] [] [] none false, 0, [], 2⟩] =
      some (TrieNode.mk NodeType.wildcard "*" none none .nil .none .none
        (some (tagHandler Nat "W")) [] [] [] none true, []) := by
  exact (claim_C2_amended).2.1 Nat ["x", "y"] 4
    ⟨TrieNode.mk NodeType.static "" none none .nil .none
        (.some (TrieNode.mk NodeType.wildcard "*" none none .nil .none .none
          (some (tagHandler Nat "W")) [] [] [] none true))
        none [] [] [] none false, 0, [], 2⟩ [] _ rfl (by decide) rfl rfl

/-! ## Claim C6: middleware ordering and short-circuit -/

/-- Claim C6: with global middleware `[A, B]` and route-local `[C]` (each
instrumented to log its tag and call `next` exactly once), execution order
is exactly `A, B, C, handler` — shown both for `executeMiddlewareChain`
itself (clause 1, any tags, any context and start state) and through
`emit` on a router with `use(A); use(B)` and local `[C]` (clause 2); and a
middleware that never calls `next` short-circuits the chain: with `B` not
calling `next`, the trace stops at `[A, B]`, and neither `C` nor the
terminal handler ever runs (clause 3; the chain still resolves without
error). The traces also witness that each stage runs only after the
previous one invokes its continuation, since each tag is appended by the
stage itself before it calls `next`. -/
theorem claim_C6_thm :
    (∀ (T : Type) (a b c h : String) (ctx : EventContext T) (s : DSt T),
      runDisp (executeMiddlewareChain ctx [tagMw T a, tagMw T b, tagMw T c]
          (tagHandler T h)) s =
        (.ok (), ⟨3, s.trace ++ [a, b, c, h], s.result⟩)) ∧
    (∀ (a b c h : String) (s : DSt Nat),
      runDisp (((((EventRouter.empty Nat).use (tagMw Nat a)).use (tagMw Nat b)).on "x"
          (tagHandler Nat h) ⟨some [tagMw Nat c], none, none⟩).emit "x" 0 none).1 s =
        (.ok (), ⟨3, s.trace ++ [a, b, c, h], s.result⟩)) ∧
    (∀ (T : Type) (a b c h : String) (ctx : EventContext T) (s : DSt T),
      runDisp (executeMiddlewareChain ctx [tagMw T a, tagStopMw T b, tagMw T c]
          (tagHandler T h)) s =
        (.ok (), ⟨2, s.trace ++ [a, b], s.result⟩)) := by
  refine ⟨?_, ?_, ?_⟩
  · intro T a b c h ctx s
    obtain ⟨i, tr, res⟩ := s
    have h1 : runDisp (executeMiddlewareChain ctx [tagMw T a, tagMw T b, tagMw T c]
        (tagHandler T h)) ⟨i, tr, res⟩ =
        (.ok (), ⟨3, (((tr ++ [a]) ++ [b]) ++ [c]) ++ [h], res⟩) := rfl
    rw [h1]
    simp
  · intro a b c h s
    obtain ⟨i, tr, res⟩ := s
    have h1 : runDisp (((((EventRouter.empty Nat).use (tagMw Nat a)).use (tagMw Nat b)).on "x"
        (tagHandler Nat h) ⟨some [tagMw Nat c], none, none⟩).emit "x" 0 none).1 ⟨i, tr, res⟩ =
        (.ok (), ⟨3, (((tr ++ [a]) ++ [b]) ++ [c]) ++ [h], res⟩) := rfl
    rw [h1]
    simp
  · intro T a b c h ctx s
    obtain ⟨i, tr, res⟩ := s
    have h1 : runDisp (executeMiddlewareChain ctx [tagMw T a, tagStopMw T b, tagMw T c]
        (tagHandler T h)) ⟨i, tr, res⟩ =
        (.ok (), ⟨2, (tr ++ [a]) ++ [b], res⟩) := rfl
    rw [h1]
    simp

/-! ## Claim C5: guard ordering, short-circuit, validation-before-guards -/

theorem runDisp_bind {T α β : Type} (x : DispM T α) (f : α → DispM T β) (s : DSt T) :
    runDisp (x >>= f) s =
      (match runDisp x s with
       | (.ok a, s') => runDisp (f a) s'
       | (.error e, s') => (.error e, s')) := by
  unfold runDisp
  cases hx : ((x.run).run s) with
  | mk exc s' =>
    cases exc with
    | ok a =>
      have hx2 : x s = (Except.ok a, s') := hx
      simp only [Bind.bind, ExceptT.bind, ExceptT.mk, ExceptT.run, StateT.run, StateT.bind,
        ExceptT.bindCont, hx2]
    | error e =>
      have hx2 : x s = (Except.error e, s') := hx
      simp only [Bind.bind, ExceptT.bind, ExceptT.mk, ExceptT.run, StateT.run, StateT.bind,
        ExceptT.bindCont, hx2, Pure.pure, StateT.pure]

/-- Running a list of all-passing instrumented guards logs their tags in
order and succeeds. -/
theorem runGuardLoop_all_true {T : Type} (e : JsError) (ctx : EventContext T)
    (tags : List String) (s : DSt T) :
    runDisp (runGuardLoop e ctx (tags.map (fun t => tagGuard T t true))) s =
      (.ok (), ⟨s.index, s.trace ++ tags, s.result⟩) := by
  induction tags generalizing s with
  | nil =>
    obtain ⟨i, tr, res⟩ := s
    have h1 : runDisp (runGuardLoop e ctx []) ⟨i, tr, res⟩ = (.ok (), ⟨i, tr, res⟩) := rfl
    rw [List.map_nil, h1]
    simp
  | cons t rest ih =>
    obtain ⟨i, tr, res⟩ := s
    rw [List.map_cons]
    show runDisp (runGuardLoop e ctx (tagGuard T t true :: rest.map (fun t => tagGuard T t true)))
      ⟨i, tr, res⟩ = _
    have h1 : runGuardLoop e ctx (tagGuard T t true :: rest.map (fun t => tagGuard T t true)) =
        ((tagGuard T t true ctx) >>= fun allowed =>
          if allowed then runGuardLoop e ctx (rest.map (fun t => tagGuard T t true))
          else throw e) := rfl
    rw [h1, runDisp_bind]
    have h2 : runDisp (tagGuard T t true ctx) ⟨i, tr, res⟩ =
        (.ok true, ⟨i, tr ++ [t], res⟩) := rfl
    rw [h2]
    show runDisp (runGuardLoop e ctx (rest.map (fun t => tagGuard T t true))) ⟨i, tr ++ [t], res⟩ = _
    rw [ih ⟨i, tr ++ [t], res⟩]
    simp

/-- Running instrumented guards where the first `false` verdict appears
after `pre` all-passing guards aborts with the given error, logging exactly
the tags up to and including the failing guard; the guards after the
failure (arbitrary functions) are never invoked. -/
theorem runGuardLoop_first_false {T : Type} (e : JsError) (ctx : EventContext T)
    (pre : List String) (ft : String) (post : List (Guard T)) (s : DSt T) :
    runDisp (runGuardLoop e ctx
        (pre.map (fun t => tagGuard T t true) ++ tagGuard T ft false :: post)) s =
      (.error e, ⟨s.index, s.trace ++ pre ++ [ft], s.result⟩) := by
  induction pre generalizing s with
  | nil =>
    obtain ⟨i, tr, res⟩ := s
    have h1 : runDisp (runGuardLoop e ctx (tagGuard T ft false :: post)) ⟨i, tr, res⟩ =
        (.error e, ⟨i, tr ++ [ft], res⟩) := rfl
    rw [List.map_nil, List.nil_append, h1]
    simp
  | cons t rest ih =>
    obtain ⟨i, tr, res⟩ := s
    rw [List.map_cons, List.cons_append]
    have h1 : runGuardLoop e ctx
        (tagGuard T t true :: (rest.map (fun t => tagGuard T t true) ++ tagGuard T ft false :: post)) =
        ((tagGuard T t true ctx) >>= fun allowed =>
          if allowed then
            runGuardLoop e ctx (rest.map (fun t => tagGuard T t true) ++ tagGuard T ft false :: post)
          else throw e) := rfl
    rw [h1, runDisp_bind]
    have h2 : runDisp (tagGuard T t true ctx) ⟨i, tr, res⟩ =
        (.ok true, ⟨i, tr ++ [t], res⟩) := rfl
    rw [h2]
    show runDisp (runGuardLoop e ctx
        (rest.map (fun t => tagGuard T t true) ++ tagGuard T ft false :: post)) ⟨i, tr ++ [t], res⟩ = _
    rw [ih ⟨i, tr ++ [t], res⟩]
    simp

/-- Claim C5: for dispatches whose matched route has guards (instrumented to
log their tags): (1) with all guards passing, `emit` runs the global guards
first in registration order, then the route-local guards in registration
order, then the handler; (2) a `false` verdict (here: last global guard)
aborts `emit` with the guard-rejection error after logging exactly the
guards up to the failure — the arbitrary later route-local guards and the
terminal handler are never invoked (the final trace does not depend on
them); (3) with a schema present whose `safeParse` rejects, `emit` aborts
with the validation error *before any guard runs* (the state is completely
untouched, whatever the global and local guards are); (4) the same guard
short-circuit for `execute`, with its verb-specific rejection error; (5)
with all guards passing, `execute` on a plain value controller runs the
guards in order and then returns the value directly. -/
theorem claim_C5_thm :
    (∀ (gtags ltags : List String) (h : String) (s : DSt Nat),
      runDisp (({ (EventRouter.empty Nat).on "a" (tagHandler Nat h)
            ⟨none, some (ltags.map (fun t => tagGuard Nat t true)), none⟩ with
          globalGuards := gtags.map (fun t => tagGuard Nat t true) }).emit "a" 0 none).1 s =
        (.ok (), ⟨0, s.trace ++ gtags ++ ltags ++ [h], s.result⟩)) ∧
    (∀ (pre : List String) (ft h : String) (post : List (Guard Nat)) (s : DSt Nat),
      runDisp (({ (EventRouter.empty Nat).on "a" (tagHandler Nat h)
            ⟨none, some post, none⟩ with
          globalGuards := pre.map (fun t => tagGuard Nat t true) ++
            [tagGuard Nat ft false] }).emit "a" 0 none).1 s =
        (.error ⟨"Guard rejected event for channel: a"⟩,
          ⟨s.index, s.trace ++ pre ++ [ft], s.result⟩)) ∧
    (∀ (gg gs : List (Guard Nat)) (h : String) (s : DSt Nat),
      runDisp (({ (EventRouter.empty Nat).on "a" (tagHandler Nat h)
            ⟨none, some gs,
              some ⟨some (fun _ => ⟨false, none, some "bad"⟩), none, none⟩⟩ with
          globalGuards := gg }).emit "a" 0 none).1 s =
        (.error ⟨"Validation Error: \"bad\""⟩, s)) ∧
    (∀ (pre : List String) (ft : String) (post : List (Guard Nat)) (s : DSt Nat),
      runDisp (((EventRouter.empty Nat).get "a" (Controller.val 7)
          ⟨none, some (pre.map (fun t => tagGuard Nat t true) ++
            tagGuard Nat ft false :: post), none⟩).execute .GET "a" 0 none) s =
        (.error ⟨"Guard rejected GET for channel: a"⟩,
          ⟨s.index, s.trace ++ pre ++ [ft], s.result⟩)) ∧
    (∀ (tags : List String) (s : DSt Nat),
      runDisp (((EventRouter.empty Nat).get "a" (Controller.val 7)
          ⟨none, some (tags.map (fun t => tagGuard Nat t true)), none⟩).execute
          .GET "a" 0 none) s =
        (.ok (some 7), ⟨s.index, s.trace ++ tags, s.result⟩)) := by
  refine ⟨?_, ?_, ?_, ?_, ?_⟩
  · intro gtags ltags h s
    obtain ⟨i, tr, res⟩ := s
    have he : (({ (EventRouter.empty Nat).on "a" (tagHandler Nat h)
          ⟨none, some (ltags.map (fun t => tagGuard Nat t true)), none⟩ with
        globalGuards := gtags.map (fun t => tagGuard Nat t true) }).emit "a" 0 none).1 =
        (runGuardLoop ⟨"Guard rejected event for channel: a"⟩
            ⟨"a", [], 0, none, generateUUID⟩
            (gtags.map (fun t => tagGuard Nat t true) ++
              ltags.map (fun t => tagGuard Nat t true)) >>= fun _ =>
          executeMiddlewareChain ⟨"a", [], 0, none, generateUUID⟩ []
            (tagHandler Nat h)) := rfl
    rw [he, ← List.map_append, runDisp_bind, runGuardLoop_all_true]
    have hc : runDisp (executeMiddlewareChain
        (⟨"a", [], 0, none, generateUUID⟩ : EventContext Nat) [] (tagHandler Nat h))
        ⟨i, tr ++ (gtags ++ ltags), res⟩ =
        (.ok (), ⟨0, (tr ++ (gtags ++ ltags)) ++ [h], res⟩) := rfl
    simp only []
    rw [hc]
    simp
  · intro pre ft h post s
    obtain ⟨i, tr, res⟩ := s
    have he : (({ (EventRouter.empty Nat).on "a" (tagHandler Nat h)
          ⟨none, some post, none⟩ with
        globalGuards := pre.map (fun t => tagGuard Nat t true) ++
          [tagGuard Nat ft false] }).emit "a" 0 none).1 =
        (runGuardLoop ⟨"Guard rejected event for channel: a"⟩
            ⟨"a", [], 0, none, generateUUID⟩
            ((pre.map (fun t => tagGuard Nat t true) ++ [tagGuard Nat ft false]) ++ post) >>=
          fun _ =>
          executeMiddlewareChain ⟨"a", [], 0, none, generateUUID⟩ []
            (tagHandler Nat h)) := rfl
    rw [he, List.append_assoc, List.singleton_append, runDisp_bind,
      runGuardLoop_first_false]
  · intro gg gs h s
    obtain ⟨i, tr, res⟩ := s
    exact rfl
  · intro pre ft post s
    obtain ⟨i, tr, res⟩ := s
    have he : (((EventRouter.empty Nat).get "a" (Controller.val 7)
        ⟨none, some (pre.map (fun t => tagGuard Nat t true) ++
          tagGuard Nat ft false :: post), none⟩).execute .GET "a" 0 none) =
        (runGuardLoop ⟨"Guard rejected GET for channel: a"⟩
            ⟨"a", [], 0, none, generateUUID⟩
            (pre.map (fun t => tagGuard Nat t true) ++ tagGuard Nat ft false :: post) >>=
          fun _ => pure (some 7)) := rfl
    rw [he, runDisp_bind, runGuardLoop_first_false]
  · intro tags s
    obtain ⟨i, tr, res⟩ := s
    have he : (((EventRouter.empty Nat).get "a" (Controller.val 7)
        ⟨none, some (tags.map (fun t => tagGuard Nat t true)), none⟩).execute
        .GET "a" 0 none) =
        (runGuardLoop ⟨"Guard rejected GET for channel: a"⟩
            ⟨"a", [], 0, none, generateUUID⟩
            (tags.map (fun t => tagGuard Nat t true)) >>= fun _ => pure (some 7)) := rfl
    rw [he, runDisp_bind, runGuardLoop_all_true]
    simp [runDisp, Pure.pure, ExceptT.pure, StateT.run, ExceptT.run, ExceptT.mk, StateT.pure]

/-! ## Claim C9: verb-registered channels are invisible to `match`/`emit` -/

mutual

/-- No node of the subtree carries a plain handler. -/
def TrieNode.handlerFree {T : Type} : TrieNode T → Prop
  | .mk _ _ _ _ ch pc wc h _ _ _ _ _ =>
    h = none ∧ ch.handlerFree ∧ pc.handlerFree ∧ wc.handlerFree

def ChildMap.handlerFree {T : Type} : ChildMap T → Prop
  | .nil => True
  | .cons _ n rest => n.handlerFree ∧ rest.handlerFree

def OptNode.handlerFree {T : Type} : OptNode T → Prop
  | .none => True
  | .some n => n.handlerFree

end

theorem TrieNode.handlerFree_handler {T : Type} (n : TrieNode T) (h : n.handlerFree) :
    n.handler = none := by
  cases n with
  | mk t s p pn ch pc wc hd ctr mw g sch e => exact h.1

theorem ChildMap.handlerFree_find {T : Type} :
    ∀ (ch : ChildMap T) (k : String) (c : TrieNode T),
      ch.handlerFree → ch.find k = .some c → c.handlerFree
  | .nil, k, c, _, hf => by simp [ChildMap.find] at hf
  | .cons k' n rest, k, c, hh, hf => by
    by_cases hk : k' = k
    · simp [ChildMap.find, hk] at hf
      exact hf ▸ hh.1
    · simp [ChildMap.find, hk] at hf
      exact ChildMap.handlerFree_find rest k c hh.2 hf

theorem TrieNode.handlerFree_child {T : Type} (n : TrieNode T) (k : String) (c : TrieNode T)
    (hh : n.handlerFree) (hf : n.children.find k = .some c) : c.handlerFree := by
  cases n with
  | mk t s p pn ch pc wc hd ctr mw g sch e =>
    exact ChildMap.handlerFree_find ch k c hh.2.1 hf

theorem TrieNode.handlerFree_param {T : Type} (n : TrieNode T) (c : TrieNode T)
    (hh : n.handlerFree) (hf : n.paramChild = .some c) : c.handlerFree := by
  cases n with
  | mk t s p pn ch pc wc hd ctr mw g sch e =>
    simp only [TrieNode.paramChild] at hf
    have := hh.2.2.1
    rw [hf] at this
    exact this

theorem TrieNode.handlerFree_wild {T : Type} (n : TrieNode T) (c : TrieNode T)
    (hh : n.handlerFree) (hf : n.wildcardChild = .some c) : c.handlerFree := by
  cases n with
  | mk t s p pn ch pc wc hd ctr mw g sch e =>
    simp only [TrieNode.wildcardChild] at hf
    have := hh.2.2.2
    rw [hf] at this
    exact this

/-- On a handler-free tree (every frame node handler-free), any node the
matcher loop returns is handler-free. -/
theorem matchLoop_handlerFree {T : Type} (segs : List String) :
    ∀ (fuel : Nat) (stack : List (MFrame T)) (n : TrieNode T)
      (p : List (String × ParamValue)),
      (∀ fr ∈ stack, fr.node.handlerFree) →
      matchLoop segs fuel stack = some (n, p) → n.handlerFree := by
  intro fuel
  induction fuel with
  | zero => intro stack n p _ h; simp [matchLoop] at h
  | succ f ih =>
    intro stack n p hst h
    cases stack with
    | nil => simp [matchLoop] at h
    | cons fr rest =>
      have hfr : fr.node.handlerFree := hst fr (List.mem_cons_self fr rest)
      have hrest : ∀ g ∈ rest, g.node.handlerFree :=
        fun g hg => hst g (List.mem_cons_of_mem fr hg)
      obtain ⟨nd, idx, sn, ph⟩ := fr
      by_cases hidx : idx = segs.length
      · by_cases hend : nd.isEndpoint = true
        · simp [matchLoop, hidx, hend] at h
          rw [← h.1]
          exact hfr
        · simp [matchLoop, hidx, hend] at h
          exact ih rest n p hrest h
      · match ph with
        | 0 =>
          simp only [matchLoop, if_neg hidx] at h
          cases hf : nd.children.find (segs.getD idx "") with
          | none => simp only [hf] at h; exact ih _ n p hrest h
          | some c =>
            simp only [hf] at h
            refine ih _ n p ?_ h
            intro g hg
            rcases List.mem_cons.mp hg with hg1 | hg2
            · rw [hg1]
              exact nd.handlerFree_child _ c hfr hf
            · rcases List.mem_cons.mp hg2 with hg3 | hg4
              · rw [hg3]; exact hfr
              · exact hrest g hg4
        | 1 =>
          simp only [matchLoop, if_neg hidx] at h
          cases hf : nd.paramChild with
          | none => simp only [hf] at h; exact ih _ n p hrest h
          | some pc =>
            cases ht : tryParamMatch pc (segs.getD idx "") sn with
            | none => simp only [hf, ht] at h; exact ih _ n p hrest h
            | some s2 =>
              simp only [hf, ht] at h
              refine ih _ n p ?_ h
              intro g hg
              rcases List.mem_cons.mp hg with hg1 | hg2
              · rw [hg1]
                exact nd.handlerFree_param pc hfr hf
              · rcases List.mem_cons.mp hg2 with hg3 | hg4
                · rw [hg3]; exact hfr
                · exact hrest g hg4
        | 2 =>
          simp only [matchLoop, if_neg hidx] at h
          cases hf : nd.wildcardChild with
          | none => simp only [hf] at h; exact ih _ n p hrest h
          | some w =>
            by_cases hw : w.isEndpoint = true
            · simp only [hf, if_pos hw, Option.some.injEq, Prod.mk.injEq] at h
              rw [← h.1]
              exact nd.handlerFree_wild w hfr hf
            · simp only [hf, if_neg hw] at h
              exact ih _ n p hrest h
        | (k + 3) =>
          simp only [matchLoop, if_neg hidx] at h
          exact ih _ n p hrest h

theorem TrieNode.new_handlerFree {T : Type} (seg : String) (t : NodeType) :
    (TrieNode.new seg t : TrieNode T).handlerFree := by
  simp [TrieNode.new, TrieNode.handlerFree, ChildMap.handlerFree, OptNode.handlerFree]

theorem ChildMap.handlerFree_set {T : Type} :
    ∀ (ch : ChildMap T) (k : String) (v : TrieNode T),
      ch.handlerFree → v.handlerFree → (ch.set k v).handlerFree
  | .nil, k, v, _, hv => by
    simp [ChildMap.set, ChildMap.handlerFree]
    exact hv
  | .cons k' n rest, k, v, hh, hv => by
    by_cases hk : k' = k
    · simp [ChildMap.set, hk, ChildMap.handlerFree]
      exact ⟨hv, hh.2⟩
    · simp [ChildMap.set, hk, ChildMap.handlerFree]
      exact ⟨hh.1, ChildMap.handlerFree_set rest k v hh.2 hv⟩

theorem OptNode.handlerFree_getD {T : Type} (o : OptNode T) (d : TrieNode T)
    (ho : o.handlerFree) (hd : d.handlerFree) : (o.getD d).handlerFree := by
  cases o with
  | none => exact hd
  | some n => exact ho

/-- `insertPath` with a handler-preserving finalizer preserves
handler-freeness. -/
theorem insertPath_handlerFree {T : Type} (upd : TrieNode T → TrieNode T)
    (hupd : ∀ m : TrieNode T, m.handlerFree → (upd m).handlerFree) :
    ∀ (segs : List String) (n : TrieNode T), n.handlerFree →
      (insertPath upd n segs).handlerFree := by
  intro segs
  induction segs with
  | nil => intro n hn; exact hupd n hn
  | cons seg rest ih =>
    intro n hn
    cases n with
    | mk t s p pn ch pc wc hd ctr mw g sch e =>
      obtain ⟨hh, hch, hpc, hwc⟩ := hn
      by_cases hw : seg = "*"
      · simp only [insertPath, if_pos hw]
        refine ⟨hh, hch, hpc, ?_⟩
        exact ih _ (OptNode.handlerFree_getD wc _ hwc (TrieNode.new_handlerFree _ _))
      · simp only [insertPath, if_neg hw]
        cases hp : parseSegmentPattern seg with
        | some pat =>
          refine ⟨hh, hch, ?_, hwc⟩
          refine ih _ (OptNode.handlerFree_getD pc _ hpc ?_)
          simp [TrieNode.handlerFree, ChildMap.handlerFree, OptNode.handlerFree]
        | none =>
          by_cases hc : startsWithColon seg = true
          · simp only [if_pos hc]
            refine ⟨hh, hch, ?_, hwc⟩
            refine ih _ (OptNode.handlerFree_getD pc _ hpc ?_)
            simp [TrieNode.handlerFree, ChildMap.handlerFree, OptNode.handlerFree]
          · simp only [if_neg hc]
            refine ⟨hh, ?_, hpc, hwc⟩
            refine ChildMap.handlerFree_set ch seg _ hch ?_
            exact ih _ (OptNode.handlerFree_getD (ch.find seg) _
              (by
                cases hf : ch.find seg with
                | none => simp [OptNode.handlerFree]
                | some c => exact ChildMap.handlerFree_find ch seg c hch hf)
              (TrieNode.new_handlerFree _ _))

theorem finalizeController_handlerFree {T : Type} (method : HttpMethod)
    (controller : Controller T) (cfg : RouteConfig T) (m : TrieNode T)
    (hm : m.handlerFree) : (finalizeController method controller cfg m).handlerFree := by
  cases m with
  | mk t s p pn ch pc wc hd ctr mw g sch e =>
    exact ⟨hm.1, hm.2.1, hm.2.2.1, hm.2.2.2⟩

/-- One verb-method registration (`get`/`post`/`put`/`patch`/`delete`). -/
inductive VerbOp (T : Type) : Type where
  | reg (method : HttpMethod) (channel : String) (controller : Controller T)
      (cfg : RouteConfig T)

/-- Apply a sequence of verb-method registrations. -/
def runVerbOps {T : Type} (r : EventRouter T) (ops : List (VerbOp T)) : EventRouter T :=
  ops.foldl (fun r op =>
    match op with
    | .reg m c ct cfg => r.registerController c m ct cfg) r

theorem runVerbOps_handlerFree {T : Type} (ops : List (VerbOp T)) :
    ∀ (r : EventRouter T), r.root.handlerFree → (runVerbOps r ops).root.handlerFree := by
  induction ops with
  | nil => intro r h; exact h
  | cons op rest ih =>
    intro r h
    cases op with
    | reg m c ct cfg =>
      refine ih _ ?_
      exact insertPath_handlerFree _ (finalizeController_handlerFree m ct cfg) _ _ h

theorem runVerbOps_cache {T : Type} (ops : List (VerbOp T)) :
    ∀ (r : EventRouter T), r.matchCache.cache = [] →
      (runVerbOps r ops).matchCache.cache = [] := by
  induction ops with
  | nil => intro r h; exact h
  | cons op rest ih =>
    intro r h
    cases op with
    | reg m c ct cfg => exact ih _ rfl

theorem computeMatch_none_of_handlerFree {T : Type} (r : EventRouter T) (c : String)
    (h : r.root.handlerFree) : r.computeMatch c = none := by
  unfold EventRouter.computeMatch
  cases hm : matchSegmentsIterative r.root (r.parseChannel c) with
  | none => rfl
  | some np =>
    obtain ⟨node, params⟩ := np
    have hnf : node.handlerFree := by
      refine matchLoop_handlerFree (r.parseChannel c) _ _ node params ?_ hm
      intro fr hfr
      simp at hfr
      rw [hfr]
      exact h
    have := node.handlerFree_handler hnf
    by_cases he : node.isEndpoint = false
    · simp [he]
    · simp [he, this]

theorem match_none_of_handlerFree {T : Type} (r : EventRouter T) (c : String)
    (h : r.root.handlerFree) (hc : r.matchCache.cache = []) :
    (r.match c).1 = none := by
  unfold EventRouter.match
  have hget : r.matchCache.get (fun v => v.isSome) c = (none, r.matchCache) := by
    unfold SimpleLRU.get
    rw [hc]
    rfl
  rw [hget]
  simp [computeMatch_none_of_handlerFree r c h]

/-- Claim C9: verb-only registration leaves `match` returning `null`, `has`
returning `false` and `emit` throwing the no-match error — for every router
built from the fresh router by any sequence of verb registrations and every
channel — because `match` requires a plain handler on the endpoint node,
which only `on` installs; while `execute` with the registered verb on the
same channel succeeds (final clause: the registered value controller is
returned). -/
theorem claim_C9_thm :
    (∀ (T : Type) (ops : List (VerbOp T)) (c : String) (ev : T)
        (md : Option (List (String × String))) (s : DSt T),
      ((runVerbOps (EventRouter.empty T) ops).match c).1 = none ∧
      ((runVerbOps (EventRouter.empty T) ops).has c).1 = false ∧
      runDisp (((runVerbOps (EventRouter.empty T) ops).emit c ev md).1) s =
        (.error ⟨"No handler found for channel: " ++ c⟩, s)) ∧
    (runDisp (((EventRouter.empty Nat).get "a:b" (Controller.val 5)
        (RouteConfig.none Nat)).execute .GET "a:b" 0 none) (dst0 Nat) =
      (.ok (some 5), dst0 Nat)) := by
  constructor
  · intro T ops c ev md s
    have hfree : (runVerbOps (EventRouter.empty T) ops).root.handlerFree := by
      refine runVerbOps_handlerFree ops _ ?_
      simp [EventRouter.empty, EventRouter.make, TrieNode.new, TrieNode.handlerFree,
        ChildMap.handlerFree, OptNode.handlerFree]
    have hcache : (runVerbOps (EventRouter.empty T) ops).matchCache.cache = [] :=
      runVerbOps_cache ops _ rfl
    have hm := match_none_of_handlerFree _ c hfree hcache
    refine ⟨hm, ?_, ?_⟩
    · unfold EventRouter.has
      simp [hm]
    · have he : (((runVerbOps (EventRouter.empty T) ops)).emit c ev md).1 =
          throw ⟨"No handler found for channel: " ++ c⟩ := by
        simp only [EventRouter.emit, hm]
      rw [he]
      obtain ⟨i, tr, res⟩ := s
      rfl
  · rfl

/-! ## Claim C3: mutators clear the cache; `match` equals the cache-free traversal -/

theorem objGet_mem {κ α : Type u} [DecidableEq κ] :
    ∀ (l : List (κ × α)) (k : κ) (v : α), objGet l k = some v → (k, v) ∈ l := by
  intro l
  induction l with
  | nil => intro k v h; simp [objGet] at h
  | cons hd tl ih =>
    intro k v h
    by_cases hk : hd.1 = k
    · simp [objGet, hk] at h
      simp [← hk, ← h]
    · simp [objGet, hk] at h
      exact List.mem_cons_of_mem hd (ih k v h)

theorem mem_objDelete {κ α : Type u} [DecidableEq κ] :
    ∀ (l : List (κ × α)) (k0 : κ) (p : κ × α), p ∈ objDelete l k0 → p ∈ l := by
  intro l
  induction l with
  | nil => intro k0 p h; simp [objDelete] at h
  | cons hd tl ih =>
    intro k0 p h
    by_cases hk : hd.1 = k0
    · simp [objDelete, hk] at h
      exact List.mem_cons_of_mem hd h
    · simp [objDelete, hk] at h
      rcases h with h | h
      · simp [h]
      · exact List.mem_cons_of_mem hd (ih k0 p h)

/-- Entries surviving an LRU `get` were present before. -/
theorem lru_get_mem {K V : Type} [DecidableEq K] (truthy : V → Bool)
    (l : SimpleLRU K V) (k : K) (p : K × V)
    (h : p ∈ ((l.get truthy k).2).cache) : p ∈ l.cache := by
  unfold SimpleLRU.get at h
  cases hg : objGet l.cache k with
  | none => rw [hg] at h; exact h
  | some v =>
    rw [hg] at h
    by_cases ht : truthy v
    · simp [ht] at h
      rcases h with h | h
      · exact mem_objDelete _ _ _ h
      · rw [h]
        exact objGet_mem _ _ _ hg
    · simp [ht] at h
      exact h

/-- Entries after an LRU `set` were present before, or are the new entry. -/
theorem lru_set_mem {K V : Type} [DecidableEq K] (l : SimpleLRU K V) (k : K) (v : V)
    (p : K × V) (h : p ∈ (l.set k v).cache) : p ∈ l.cache ∨ p = (k, v) := by
  unfold SimpleLRU.set at h
  simp at h
  rcases h with h | h
  · by_cases hk : (objGet l.cache k).isSome
    · rw [if_pos hk] at h
      exact Or.inl (mem_objDelete _ _ _ h)
    · rw [if_neg hk] at h
      by_cases hfull : l.max ≤ l.cache.length
      · rw [if_pos hfull] at h
        exact Or.inl (List.mem_of_mem_tail h)
      · rw [if_neg hfull] at h
        exact Or.inl h
  · exact Or.inr h

/-- The result component of an LRU `get` is the plain lookup. -/
theorem lru_get_fst {K V : Type} [DecidableEq K] (truthy : V → Bool)
    (l : SimpleLRU K V) (k : K) : (l.get truthy k).1 = objGet l.cache k := by
  unfold SimpleLRU.get
  cases hg : objGet l.cache k with
  | none => rfl
  | some v =>
    by_cases ht : truthy v
    · simp [ht]
    · simp [ht]

/-- Every cache entry agrees with the cache-free traversal of the current
trie. -/
def CacheConsistent {T : Type} (r : EventRouter T) : Prop :=
  ∀ (k : String) (v : Option (RouteMatch T)),
    (k, v) ∈ r.matchCache.cache → v = r.computeMatch k

/-- A registration / merge / match operation on the router, as the claim
quantifies over sequences of them. -/
inductive ROp (T : Type) : Type where
  | onOp (channel : String) (handler : EventHandler T) (cfg : RouteConfig T)
  | regOp (method : HttpMethod) (channel : String) (controller : Controller T)
      (cfg : RouteConfig T)
  | mergeOp (other : EventRouter T) (pfx : String)
  | matchOp (channel : String)

def rStep {T : Type} (r : EventRouter T) : ROp T → EventRouter T
  | .onOp c h cfg => r.on c h cfg
  | .regOp m c ct cfg => r.registerController c m ct cfg
  | .mergeOp o p => r.merge o p
  | .matchOp c => (r.match c).2

def rRun {T : Type} (r : EventRouter T) (ops : List (ROp T)) : EventRouter T :=
  ops.foldl rStep r

/-- On a consistent cache, `match` returns exactly the cache-free traversal
result. -/
theorem match_eq_computeMatch {T : Type} (r : EventRouter T) (c : String)
    (hcons : CacheConsistent r) : (r.match c).1 = r.computeMatch c := by
  unfold EventRouter.match
  cases hg : objGet r.matchCache.cache c with
  | none =>
    have h1 : (r.matchCache.get (fun v => v.isSome) c).1 = none := by
      rw [lru_get_fst]; exact hg
    cases hgc : r.matchCache.get (fun v => v.isSome) c with
    | mk fst snd =>
      rw [hgc] at h1
      simp at h1
      rw [h1]
  | some v =>
    have h1 : (r.matchCache.get (fun v => v.isSome) c).1 = some v := by
      rw [lru_get_fst]; exact hg
    cases hgc : r.matchCache.get (fun v => v.isSome) c with
    | mk fst snd =>
      rw [hgc] at h1
      simp at h1
      rw [h1]
      exact hcons c v (objGet_mem _ _ _ hg)

theorem match_snd_root {T : Type} (r : EventRouter T) (c : String) :
    ((r.match c).2).root = r.root := by
  unfold EventRouter.match
  cases hgc : r.matchCache.get (fun v => v.isSome) c with
  | mk fst snd => cases fst <;> rfl

theorem match_snd_delim {T : Type} (r : EventRouter T) (c : String) :
    ((r.match c).2).delimiter = r.delimiter := by
  unfold EventRouter.match
  cases hgc : r.matchCache.get (fun v => v.isSome) c with
  | mk fst snd => cases fst <;> rfl

/-- `computeMatch` only reads the trie root and the delimiter, so it is
unchanged across cache-only state changes. -/
theorem computeMatch_congr {T : Type} (r r2 : EventRouter T) (k : String)
    (hroot : r2.root = r.root) (hdelim : r2.delimiter = r.delimiter) :
    r2.computeMatch k = r.computeMatch k := by
  unfold EventRouter.computeMatch EventRouter.parseChannel
  rw [hroot, hdelim]

/-- An entry of the cache after `match` was already present, or is the
freshly computed traversal result keyed by the matched channel. -/
theorem match_snd_mem {T : Type} (r : EventRouter T) (c k : String)
    (v : Option (RouteMatch T))
    (hk : (k, v) ∈ ((r.match c).2).matchCache.cache) :
    (k, v) ∈ r.matchCache.cache ∨ (k = c ∧ v = r.computeMatch c) := by
  unfold EventRouter.match at hk
  cases hgc : r.matchCache.get (fun v => v.isSome) c with
  | mk fst snd =>
    rw [hgc] at hk
    cases fst with
    | some v0 =>
      simp at hk
      left
      refine lru_get_mem (fun v => v.isSome) r.matchCache c (k, v) ?_
      rw [hgc]
      exact hk
    | none =>
      simp at hk
      have hob : objGet r.matchCache.cache c = none := by
        rw [← lru_get_fst (fun v => v.isSome)]
        rw [hgc]
      have hsnd : snd = r.matchCache := by
        have h2 : r.matchCache.get (fun v => v.isSome) c = (none, r.matchCache) := by
          unfold SimpleLRU.get
          rw [hob]
        rw [hgc] at h2
        exact ((Prod.mk.injEq _ _ _ _).mp h2).2
      rcases lru_set_mem snd c (r.computeMatch c) (k, v) hk with hmem | hnew
      · left
        rw [← hsnd]
        exact hmem
      · right
        exact ⟨((Prod.mk.injEq _ _ _ _).mp hnew).1, ((Prod.mk.injEq _ _ _ _).mp hnew).2⟩

/-- Consistency is preserved by every operation: mutators clear the cache,
and `match` only inserts the freshly computed traversal result. -/
theorem rStep_consistent {T : Type} (r : EventRouter T) (op : ROp T)
    (hcons : CacheConsistent r) : CacheConsistent (rStep r op) := by
  cases op with
  | onOp c h cfg => intro k v hk; simp [rStep, EventRouter.on, SimpleLRU.clear] at hk
  | regOp m c ct cfg =>
    intro k v hk
    simp [rStep, EventRouter.registerController, SimpleLRU.clear] at hk
  | mergeOp o p => intro k v hk; simp [rStep, EventRouter.merge, SimpleLRU.clear] at hk
  | matchOp c =>
    intro k v hk
    simp only [rStep] at hk ⊢
    have hcongr := computeMatch_congr r ((r.match c).2) k (match_snd_root r c)
      (match_snd_delim r c)
    rw [hcongr]
    rcases match_snd_mem r c k v hk with hmem | ⟨hkc, hv⟩
    · exact hcons k v hmem
    · rw [hv, hkc]

theorem rRun_consistent {T : Type} (ops : List (ROp T)) :
    ∀ (r : EventRouter T), CacheConsistent r → CacheConsistent (rRun r ops) := by
  induction ops with
  | nil => intro r h; exact h
  | cons op rest ih =>
    intro r h
    exact ih _ (rStep_consistent r op h)

/-- Claim C3: every mutating trie operation — `on`, verb-specific
registration, `merge` — leaves the match cache empty on return (clauses
1-3, for every router and arguments); consequently, for every sequence of
registrations, merges and matches starting from a fresh router, `match(c)`
returns exactly what the cache-free trie traversal (`computeMatch`) of the
current trie returns (clause 4). The concrete clauses 5 and 6 instance the
"in particular": after `match` has populated the cache positively,
re-registering the channel with a new handler and re-dispatching runs the
*new* handler; and after a negative entry is cached for `y`, registering
`y` and re-matching finds it. -/
theorem claim_C3_thm :
    (∀ (T : Type) (r : EventRouter T) (c : String) (h : EventHandler T)
        (cfg : RouteConfig T), (r.on c h cfg).matchCache.cache = []) ∧
    (∀ (T : Type) (r : EventRouter T) (m : HttpMethod) (c : String)
        (ct : Controller T) (cfg : RouteConfig T),
      (r.registerController c m ct cfg).matchCache.cache = []) ∧
    (∀ (T : Type) (r other : EventRouter T) (pfx : String),
      (r.merge other pfx).matchCache.cache = []) ∧
    (∀ (T : Type) (ops : List (ROp T)) (c : String),
      ((rRun (EventRouter.empty T) ops).match c).1 =
        (rRun (EventRouter.empty T) ops).computeMatch c) ∧
    (runDisp ((((((EventRouter.empty Nat).on "x" (tagHandler Nat "old")
          (RouteConfig.none Nat)).match "x").2).on "x" (tagHandler Nat "new")
          (RouteConfig.none Nat)).emit "x" 0 none).1 (dst0 Nat) =
      (.ok (), ⟨0, ["new"], none⟩)) ∧
    (((((EventRouter.empty Nat).match "y").2).on "y" (tagHandler Nat "H")
          (RouteConfig.none Nat)).match "y").1.isSome = true := by
  refine ⟨fun T r c h cfg => rfl, fun T r m c ct cfg => rfl, fun T r o p => rfl,
    ?_, by rfl, by rfl⟩
  intro T ops c
  refine match_eq_computeMatch _ c ?_
  refine rRun_consistent ops _ ?_
  intro k v hk
  simp [EventRouter.empty, EventRouter.make] at hk

/-! ## Claim C8: `getRoutes` round-trip

String-level facts: channel segments produced by the single-character split
contain no delimiter character and are non-empty, and joining such segment
lists is injective. -/

theorem jsSplitAux_single_free (c : Char) :
    ∀ (fuel : Nat) (s acc : List Char), (∀ a ∈ acc, a ≠ c) →
      ∀ p ∈ jsSplitAux [c] fuel s acc, ∀ a ∈ p, a ≠ c := by
  intro fuel
  induction fuel with
  | zero =>
    intro s acc hacc p hp a ha
    simp [jsSplitAux] at hp
    rw [hp] at ha
    exact hacc a (List.mem_reverse.mp ha)
  | succ f ih =>
    intro s acc hacc p hp a ha
    cases s with
    | nil =>
      simp [jsSplitAux] at hp
      rw [hp] at ha
      exact hacc a (List.mem_reverse.mp ha)
    | cons x rest =>
      by_cases hx : x = c
      · have hpre : [c].isPrefixOf (x :: rest) = true := by
          simp [List.isPrefixOf, hx]
        simp only [jsSplitAux, hpre, if_true] at hp
        rcases List.mem_cons.mp hp with hp1 | hp2
        · rw [hp1] at ha
          exact hacc a (List.mem_reverse.mp ha)
        · exact ih _ [] (by simp) p hp2 a ha
      · have hpre : [c].isPrefixOf (x :: rest) = false := by
          simp [List.isPrefixOf]
          intro hcx
          exact absurd hcx.symm hx
        simp only [jsSplitAux, hpre] at hp
        refine ih rest (x :: acc) ?_ p (by simpa using hp) a ha
        intro b hb
        rcases List.mem_cons.mp hb with hb1 | hb2
        · rw [hb1]; exact hx
        · exact hacc b hb2

/-- Every segment of a channel split on the single-character delimiter `":"`
is non-empty and free of `':'`. -/
theorem chanSplit_segments (ch : String) (s : String) (hs : s ∈ chanSplit ":" ch) :
    s.data ≠ [] ∧ ∀ a ∈ s.data, a ≠ ':' := by
  unfold chanSplit at hs
  rw [List.mem_filter] at hs
  obtain ⟨hmem, hlen⟩ := hs
  rw [List.mem_map] at hmem
  obtain ⟨p, hp, hps⟩ := hmem
  have hdl : (":".data) = [':'] := rfl
  rw [jsSplit, hdl, if_neg (by simp)] at hp
  have hfree : ∀ a ∈ p, a ≠ ':' :=
    jsSplitAux_single_free ':' (ch.data.length + 1) ch.data [] (by simp) p hp
  have hdp : s.data = p := by rw [← hps]
  constructor
  · intro hnil
    rw [hdp] at hnil
    have hl : 0 < s.length := of_decide_eq_true hlen
    have hl2 : s.length = s.data.length := rfl
    rw [hl2, hdp, hnil] at hl
    simp at hl
  · intro a ha
    rw [hdp] at ha
    exact hfree a ha

/-- Splitting `s1 ++ r1 = s2 ++ r2` where `s1`, `s2` are `':'`-free and
`r1`, `r2` are empty or start with `':'` forces `s1 = s2` (and hence
`r1 = r2`). -/
theorem colon_free_prefix_eq :
    ∀ (s1 s2 r1 r2 : List Char), (∀ a ∈ s1, a ≠ ':') → (∀ a ∈ s2, a ≠ ':') →
      (r1 = [] ∨ r1.head? = some ':') → (r2 = [] ∨ r2.head? = some ':') →
      s1 ++ r1 = s2 ++ r2 → s1 = s2 ∧ r1 = r2 := by
  intro s1
  induction s1 with
  | nil =>
    intro s2 r1 r2 h1 h2 hr1 hr2 he
    cases s2 with
    | nil => exact ⟨rfl, by simpa using he⟩
    | cons b bs =>
      exfalso
      simp at he
      rcases hr1 with h | h
      · rw [h] at he; exact (List.noConfusion he.symm : False)
      · rw [he] at h
        simp at h
        exact h2 b (by simp) h
  | cons a as ih =>
    intro s2 r1 r2 h1 h2 hr1 hr2 he
    cases s2 with
    | nil =>
      exfalso
      simp at he
      rcases hr2 with h | h
      · rw [h] at he; exact (List.noConfusion he : False)
      · rw [← he] at h
        simp at h
        exact h1 a (by simp) h
    | cons b bs =>
      simp at he
      obtain ⟨hab, htail⟩ := he
      have := ih bs r1 r2 (fun x hx => h1 x (List.mem_cons_of_mem a hx))
        (fun x hx => h2 x (List.mem_cons_of_mem b hx)) hr1 hr2 htail
      exact ⟨by rw [hab, this.1], this.2⟩

/-- The joined form of the non-first pieces: empty, or `':'` followed by
the join of the remaining pieces. -/
def joinTail (l : List (List Char)) : List Char :=
  match l with
  | [] => []
  | _ :: _ => ':' :: jsJoinL [':'] l

theorem jsJoinL_cons (p : List Char) (ps : List (List Char)) :
    jsJoinL [':'] (p :: ps) = p ++ joinTail ps := by
  cases ps with
  | nil => simp [jsJoinL, joinTail]
  | cons q qs => simp [jsJoinL, joinTail]

theorem joinTail_spec (ps : List (List Char)) :
    joinTail ps = [] ∨ (joinTail ps).head? = some ':' := by
  cases ps with
  | nil => exact Or.inl rfl
  | cons q qs => exact Or.inr rfl

/-- `jsJoinL [':']` is injective on lists of non-empty `':'`-free pieces. -/
theorem jsJoinL_colon_inj :
    ∀ (l1 l2 : List (List Char)),
      (∀ p ∈ l1, p ≠ [] ∧ ∀ a ∈ p, a ≠ ':') →
      (∀ p ∈ l2, p ≠ [] ∧ ∀ a ∈ p, a ≠ ':') →
      jsJoinL [':'] l1 = jsJoinL [':'] l2 → l1 = l2 := by
  intro l1
  induction l1 with
  | nil =>
    intro l2 h1 h2 he
    cases l2 with
    | nil => rfl
    | cons p ps =>
      exfalso
      rw [jsJoinL_cons] at he
      have : jsJoinL [':'] [] = [] := rfl
      rw [this] at he
      rcases List.append_eq_nil.mp he.symm with ⟨hp, _⟩
      exact (h2 p (by simp)).1 hp
  | cons p ps ih =>
    intro l2 h1 h2 he
    cases l2 with
    | nil =>
      exfalso
      rw [jsJoinL_cons] at he
      have : jsJoinL [':'] [] = [] := rfl
      rw [this] at he
      rcases List.append_eq_nil.mp he with ⟨hp, _⟩
      exact (h1 p (by simp)).1 hp
    | cons p2 ps2 =>
      rw [jsJoinL_cons, jsJoinL_cons] at he
      obtain ⟨hp, ht⟩ := colon_free_prefix_eq p p2 (joinTail ps) (joinTail ps2)
        (h1 p (by simp)).2 (h2 p2 (by simp)).2 (joinTail_spec ps) (joinTail_spec ps2) he
      cases ps with
      | nil =>
        cases ps2 with
        | nil => rw [hp]
        | cons q qs => exact absurd ht (by simp [joinTail])
      | cons q qs =>
        cases ps2 with
        | nil => exact absurd ht (by simp [joinTail])
        | cons q2 qs2 =>
          simp only [joinTail, List.cons.injEq] at ht
          have hps := ih (q2 :: qs2) (fun x hx => h1 x (List.mem_cons_of_mem p hx))
            (fun x hx => h2 x (List.mem_cons_of_mem p2 hx)) ht.2
          rw [hp, hps]

/-- `jsJoin ":"` is injective on lists of non-empty `':'`-free segments. -/
theorem jsJoin_colon_inj (l1 l2 : List String)
    (h1 : ∀ s ∈ l1, s.data ≠ [] ∧ ∀ a ∈ s.data, a ≠ ':')
    (h2 : ∀ s ∈ l2, s.data ≠ [] ∧ ∀ a ∈ s.data, a ≠ ':')
    (he : jsJoin ":" l1 = jsJoin ":" l2) : l1 = l2 := by
  unfold jsJoin at he
  have hd : (":".data) = [':'] := rfl
  rw [hd] at he
  have he2 : jsJoinL [':'] (l1.map String.data) = jsJoinL [':'] (l2.map String.data) := by
    have := congrArg String.data he
    simpa using this
  have hmaps := jsJoinL_colon_inj (l1.map String.data) (l2.map String.data)
    (by
      intro p hp
      rw [List.mem_map] at hp
      obtain ⟨s, hs, hsp⟩ := hp
      rw [← hsp]
      exact h1 s hs)
    (by
      intro p hp
      rw [List.mem_map] at hp
      obtain ⟨s, hs, hsp⟩ := hp
      rw [← hsp]
      exact h2 s hs)
    he2
  have hinj : Function.Injective String.data := by
    intro a b hab
    cases a
    cases b
    exact congrArg String.mk hab
  exact List.map_injective_iff.mpr hinj hmaps

mutual

/-- The registered endpoint paths of a subtree, as segment lists, in
`collectRoutes` order: the endpoint itself, then static children by key,
then the parametric child by its stored segment, then the wildcard child as
the literal `*`. -/
def routePaths {T : Type} : TrieNode T → List (List String)
  | .mk _ _ _ _ ch pc wc _ _ _ _ _ e =>
    (if e then [([] : List String)] else []) ++
      (cmPaths ch ++
        ((match pc with
          | .some p => (routePaths p).map (fun q => p.segment :: q)
          | .none => []) ++
          (match wc with
           | .some w => (routePaths w).map (fun q => "*" :: q)
           | .none => [])))

def cmPaths {T : Type} : ChildMap T → List (List String)
  | .nil => []
  | .cons k c rest => (routePaths c).map (fun q => k :: q) ++ cmPaths rest

end

mutual

/-- `collectRoutes` is the joined rendering of `routePaths`. -/
theorem collectRoutes_eq_paths {T : Type} (delim : String) :
    ∀ (n : TrieNode T) (path : List String),
      collectRoutes delim path n = (routePaths n).map (fun q => jsJoin delim (path ++ q))
  | .mk t s p pn ch pc wc hd ctr mw g sch e, path => by
    unfold collectRoutes routePaths
    rw [collectRoutesChildren_eq_paths delim ch path]
    cases pc with
    | none =>
      cases wc with
      | none =>
        cases e <;> simp [List.map_map, Function.comp_def, List.append_assoc]
      | some w =>
        dsimp only
        rw [collectRoutes_eq_paths delim w (path ++ ["*"])]
        cases e <;> simp [List.map_map, Function.comp_def, List.append_assoc]
    | some pchild =>
      dsimp only
      rw [collectRoutes_eq_paths delim pchild (path ++ [pchild.segment])]
      cases wc with
      | none => cases e <;> simp [List.map_map, Function.comp_def, List.append_assoc]
      | some w =>
        dsimp only
        rw [collectRoutes_eq_paths delim w (path ++ ["*"])]
        cases e <;> simp [List.map_map, Function.comp_def, List.append_assoc]

theorem collectRoutesChildren_eq_paths {T : Type} (delim : String) :
    ∀ (ch : ChildMap T) (path : List String),
      collectRoutesChildren delim path ch =
        (cmPaths ch).map (fun q => jsJoin delim (path ++ q))
  | .nil, path => by
    unfold collectRoutesChildren cmPaths
    simp
  | .cons k c rest, path => by
    unfold collectRoutesChildren cmPaths
    rw [collectRoutes_eq_paths delim c (path ++ [k]),
      collectRoutesChildren_eq_paths delim rest path]
    simp [List.map_map, Function.comp_def, List.append_assoc]

end

/-- A path is fresh for a tree when, along the existing nodes it would
reuse, every reused parametric slot stores exactly this path's segment and
the terminal node (if it already exists) is not yet an endpoint. Fresh
paths are the ones whose registration adds exactly one rendered route. -/
def FreshPath {T : Type} : TrieNode T → List String → Prop
  | n, [] => n.isEndpoint = false
  | n, seg :: rest =>
    if seg = "*" then
      match n.wildcardChild with
      | .some w => FreshPath w rest
      | .none => True
    else
      match parseSegmentPattern seg with
      | some _ =>
        match n.paramChild with
        | .some p => p.segment = seg ∧ FreshPath p rest
        | .none => True
      | none =>
        if startsWithColon seg = true then
          match n.paramChild with
          | .some p => p.segment = seg ∧ FreshPath p rest
          | .none => True
        else
          match n.children.find seg with
          | .some c => FreshPath c rest
          | .none => True

/-- A leaf node (no children, not an endpoint) is fresh for every path. -/
theorem FreshPath_leaf {T : Type} (t : NodeType) (s : String) (p : Option SegmentPattern)
    (pn : Option String) (hd : Option (EventHandler T))
    (ctr : List (HttpMethod × Controller T)) (mw : List (Middleware T))
    (g : List (Guard T)) (sch : Option (ValidatorSchema T)) :
    ∀ segs : List String,
      FreshPath (TrieNode.mk t s p pn .nil .none .none hd ctr mw g sch false) segs := by
  intro segs
  cases segs with
  | nil => rfl
  | cons seg rest =>
    simp only [FreshPath]
    by_cases hw : seg = "*"
    · simp [hw, TrieNode.wildcardChild]
    · rw [if_neg hw]
      cases hps : parseSegmentPattern seg with
      | some pat => simp [TrieNode.paramChild]
      | none =>
        by_cases hc : startsWithColon seg = true
        · simp [hc, TrieNode.paramChild]
        · simp [hc, TrieNode.children, ChildMap.find]

theorem FreshPath_new {T : Type} (s : String) (t : NodeType) (segs : List String) :
    FreshPath (TrieNode.new s t : TrieNode T) segs :=
  FreshPath_leaf t s none none none [] [] [] none segs

/-- `insertPath` never changes a node's own stored segment. -/
theorem insertPath_segment {T : Type} (upd : TrieNode T → TrieNode T)
    (hupd : ∀ m : TrieNode T, (upd m).segment = m.segment) (n : TrieNode T)
    (segs : List String) : (insertPath upd n segs).segment = n.segment := by
  cases segs with
  | nil => exact hupd n
  | cons seg rest =>
    cases n with
    | mk t s p pn ch pc wc hd ctr mw g sch e =>
      by_cases hw : seg = "*"
      · simp [insertPath, hw, TrieNode.segment]
      · simp only [insertPath, if_neg hw]
        cases hps : parseSegmentPattern seg with
        | some pat => simp [TrieNode.segment]
        | none =>
          by_cases hc : startsWithColon seg = true
          · simp [hc, TrieNode.segment]
          · simp [hc, TrieNode.segment]

theorem finalizeOn_segment {T : Type} (h : EventHandler T) (cfg : RouteConfig T)
    (m : TrieNode T) : (finalizeOn h cfg m).segment = m.segment := by
  cases m with
  | mk t s p pn ch pc wc hd ctr mw g sch e => rfl

/-- Pull a distinguished element out of the left factor of an append. -/
theorem perm_pull1 {α : Type u} {A A' : List α} {x : α} (Z : List α)
    (h : List.Perm A (x :: A')) : List.Perm (A ++ Z) (x :: (A' ++ Z)) :=
  h.append_right Z

/-- Pull a distinguished element across the left factor of an append. -/
theorem perm_pull2 {α : Type u} {A A' : List α} {x : α} (E : List α)
    (h : List.Perm A (x :: A')) : List.Perm (E ++ A) (x :: (E ++ A')) :=
  (List.Perm.append_left E h).trans List.perm_middle

theorem routePaths_leaf {T : Type} (t : NodeType) (s : String) (p : Option SegmentPattern)
    (pn : Option String) (hd : Option (EventHandler T))
    (ctr : List (HttpMethod × Controller T)) (mw : List (Middleware T))
    (g : List (Guard T)) (sch : Option (ValidatorSchema T)) :
    routePaths (TrieNode.mk t s p pn .nil .none .none hd ctr mw g sch false) = [] := by
  unfold routePaths cmPaths
  simp

theorem routePaths_new {T : Type} (s : String) (t : NodeType) :
    routePaths (TrieNode.new s t : TrieNode T) = [] :=
  routePaths_leaf t s none none none [] [] [] none

/-- Replacing a present key's node with one whose paths gained exactly `q`
prepends the rendered path `k :: q` to the child map's paths, up to
permutation. -/
theorem cmPaths_set_found {T : Type} :
    ∀ (ch : ChildMap T) (k : String) (c v : TrieNode T) (q : List String),
      ch.find k = .some c → List.Perm (routePaths v) (q :: routePaths c) →
      List.Perm (cmPaths (ch.set k v)) ((k :: q) :: cmPaths ch)
  | .nil, k, c, v, q, hf, _ => by simp [ChildMap.find] at hf
  | .cons k' n rest, k, c, v, q, hf, hperm => by
    by_cases hk : k' = k
    · simp only [ChildMap.find, if_pos hk] at hf
      have hnc : n = c := by
        cases hf
        rfl
      unfold ChildMap.set
      rw [if_pos hk]
      unfold cmPaths
      rw [hnc, hk]
      exact (hperm.map (fun p => k :: p)).append_right (cmPaths rest)
    · simp only [ChildMap.find, if_neg hk] at hf
      unfold ChildMap.set
      rw [if_neg hk]
      unfold cmPaths
      exact perm_pull2 _ (cmPaths_set_found rest k c v q hf hperm)

/-- Appending a fresh key places its node's rendered paths at the end. -/
theorem cmPaths_set_absent {T : Type} :
    ∀ (ch : ChildMap T) (k : String) (v : TrieNode T),
      ch.find k = .none →
      cmPaths (ch.set k v) = cmPaths ch ++ (routePaths v).map (fun q => k :: q)
  | .nil, k, v, _ => by
    unfold ChildMap.set cmPaths
    unfold cmPaths
    simp
  | .cons k' n rest, k, v, hf => by
    by_cases hk : k' = k
    · simp [ChildMap.find, if_pos hk] at hf
    · simp only [ChildMap.find, if_neg hk] at hf
      unfold ChildMap.set
      rw [if_neg hk]
      unfold cmPaths
      rw [cmPaths_set_absent rest k v hf]
      simp [List.append_assoc]

/-- Finalizing a non-endpoint node adds exactly the empty rendered path. -/
theorem routePaths_finalizeOn {T : Type} (h : EventHandler T) (cfg : RouteConfig T)
    (n : TrieNode T) (he : n.isEndpoint = false) :
    routePaths (finalizeOn h cfg n) = [] :: routePaths n := by
  cases n with
  | mk t s p pn ch pc wc hd ctr mw g sch e =>
    have he2 : e = false := he
    unfold finalizeOn routePaths
    rw [he2]
    simp

/-- Registering a fresh path adds exactly that path (rendered with its own
segments, since every reused parametric slot stores this path's segment and
wildcards render as their own `*`) to the tree's route paths, up to
permutation. -/
theorem routePaths_insert {T : Type} (h : EventHandler T) (cfg : RouteConfig T) :
    ∀ (segs : List String) (n : TrieNode T), FreshPath n segs →
      List.Perm (routePaths (insertPath (finalizeOn h cfg) n segs))
        (segs :: routePaths n) := by
  intro segs
  induction segs with
  | nil =>
    intro n hf
    have h1 : insertPath (finalizeOn h cfg) n [] = finalizeOn h cfg n := rfl
    rw [h1, routePaths_finalizeOn h cfg n hf]
  | cons seg rest ih =>
    intro n hf
    cases n with
    | mk t s p pn ch pc wc hd ctr mw g sch e =>
      by_cases hw : seg = "*"
      · simp only [FreshPath, if_pos hw, TrieNode.wildcardChild] at hf
        simp only [insertPath, if_pos hw]
        unfold routePaths
        cases wc with
        | some w =>
          dsimp only [OptNode.getD]
          have hih := (ih w hf).map (fun q => "*" :: q)
          rw [hw]
          exact perm_pull2 _ (perm_pull2 _ (perm_pull2 _ hih))
        | none =>
          dsimp only [OptNode.getD]
          have hih := (ih (TrieNode.new "*" NodeType.wildcard)
            (FreshPath_new "*" NodeType.wildcard rest)).map (fun q => "*" :: q)
          rw [routePaths_new] at hih
          rw [hw]
          exact perm_pull2 _ (perm_pull2 _ (perm_pull2 _ hih))
      · simp only [FreshPath, if_neg hw] at hf
        cases hps : parseSegmentPattern seg with
        | some pat =>
          rw [hps] at hf
          simp only [insertPath, if_neg hw, hps]
          unfold routePaths
          cases pc with
          | some p0 =>
            simp only [TrieNode.paramChild] at hf
            obtain ⟨hseg, hf2⟩ := hf
            dsimp only [OptNode.getD]
            have hs1 : (insertPath (finalizeOn h cfg) p0 rest).segment = p0.segment :=
              insertPath_segment _ (finalizeOn_segment h cfg) p0 rest
            rw [hs1, hseg]
            have hih := (ih p0 hf2).map (fun q => seg :: q)
            exact perm_pull2 _ (perm_pull2 _ (perm_pull1 _ hih))
          | none =>
            dsimp only [OptNode.getD]
            have hfl := FreshPath_leaf NodeType.param seg (some pat) none
              (T := T) none [] [] [] none rest
            have hih := (ih _ hfl).map (fun q => seg :: q)
            rw [routePaths_leaf] at hih
            have hs1 : (insertPath (finalizeOn h cfg)
                (TrieNode.mk NodeType.param seg (some pat) none .nil .none .none none [] [] []
                  none false) rest).segment = seg :=
              insertPath_segment _ (finalizeOn_segment h cfg) _ rest
            rw [hs1]
            exact perm_pull2 _ (perm_pull2 _ (perm_pull1 _ hih))
        | none =>
          rw [hps] at hf
          simp only [insertPath, if_neg hw, hps]
          by_cases hc : startsWithColon seg = true
          · rw [if_pos hc] at hf ⊢
            unfold routePaths
            cases pc with
            | some p0 =>
              simp only [TrieNode.paramChild] at hf
              obtain ⟨hseg, hf2⟩ := hf
              dsimp only [OptNode.getD]
              have hs1 : (insertPath (finalizeOn h cfg) p0 rest).segment = p0.segment :=
                insertPath_segment _ (finalizeOn_segment h cfg) p0 rest
              rw [hs1, hseg]
              have hih := (ih p0 hf2).map (fun q => seg :: q)
              exact perm_pull2 _ (perm_pull2 _ (perm_pull1 _ hih))
            | none =>
              dsimp only [OptNode.getD]
              have hfl := FreshPath_leaf NodeType.param seg none (some (sliceOne seg))
                (T := T) none [] [] [] none rest
              have hih := (ih _ hfl).map (fun q => seg :: q)
              rw [routePaths_leaf] at hih
              have hs1 : (insertPath (finalizeOn h cfg)
                  (TrieNode.mk NodeType.param seg none (some (sliceOne seg)) .nil .none .none
                    none [] [] [] none false) rest).segment = seg :=
                insertPath_segment _ (finalizeOn_segment h cfg) _ rest
              rw [hs1]
              exact perm_pull2 _ (perm_pull2 _ (perm_pull1 _ hih))
          · rw [if_neg hc] at hf ⊢
            unfold routePaths
            simp only [TrieNode.children] at hf
            cases hfind : ch.find seg with
            | some c =>
              rw [hfind] at hf
              dsimp only [OptNode.getD]
              have hcm := cmPaths_set_found ch seg c _ rest hfind (ih c hf)
              exact perm_pull2 _ (perm_pull1 _ hcm)
            | none =>
              rw [hfind] at hf
              dsimp only [OptNode.getD]
              have hcm := cmPaths_set_absent ch seg
                (insertPath (finalizeOn h cfg) (TrieNode.new seg NodeType.static) rest) hfind
              rw [hcm]
              have hih := (ih (TrieNode.new seg NodeType.static)
                (FreshPath_new seg NodeType.static rest)).map (fun q => seg :: q)
              rw [routePaths_new] at hih
              rw [List.append_assoc]
              exact perm_pull2 _ (perm_pull2 _ (perm_pull1 _ hih))
/-! ### Divergence of registration paths

`insertSegment` routes each segment to one of three child slots: the sole
wildcard child for `*`, the sole parametric child for a pattern-compiled or
legacy `:name` segment, and a static child keyed by the exact text
otherwise. Two parsed templates stay independent endpoints exactly when at
every shared position they either take the same slot with the same text or
take different slots; the excluded situation is the parametric slot reached
with two different segment texts (the first-registration-wins collapse). -/

/-- The child slot `insertSegment` routes a segment to. -/
inductive Slot : Type where
  | wild
  | param
  | stat (key : String)
deriving DecidableEq

def slotOf (s : String) : Slot :=
  if s = "*" then .wild
  else
    match parseSegmentPattern s with
    | some _ => .param
    | none => if startsWithColon s then .param else .stat s

theorem slotOf_wild {a : String} (h : a = "*") : slotOf a = .wild := by
  rw [slotOf, if_pos h]

theorem slotOf_pat {a : String} {pat : SegmentPattern} (hw : ¬a = "*")
    (hp : parseSegmentPattern a = some pat) : slotOf a = .param := by
  rw [slotOf, if_neg hw, hp]

theorem slotOf_colon {a : String} (hw : ¬a = "*") (hp : parseSegmentPattern a = none)
    (hc : startsWithColon a = true) : slotOf a = .param := by
  rw [slotOf, if_neg hw, hp]
  simp [hc]

theorem slotOf_stat {a : String} (hw : ¬a = "*") (hp : parseSegmentPattern a = none)
    (hc : ¬startsWithColon a = true) : slotOf a = .stat a := by
  rw [slotOf, if_neg hw, hp]
  simp [hc]

/-- Two parsed templates diverge: they are not the same path, and at their
first difference they do not both land in the shared parametric slot (with
different texts). Such a pair ends in distinct trie endpoints. -/
def divergeB : List String → List String → Bool
  | [], [] => false
  | [], _ :: _ => true
  | _ :: _, [] => true
  | a :: u, b :: v => if slotOf a = slotOf b then a == b && divergeB u v else true

/-- Diverging templates are distinct. -/
theorem divergeB_ne : ∀ {u v : List String}, divergeB u v = true → u ≠ v
  | [], [], hd => by simp [divergeB] at hd
  | [], _ :: _, _ => by simp
  | _ :: _, [], _ => by simp
  | a :: u, b :: v, hd => by
    by_cases hs : slotOf a = slotOf b
    · rw [divergeB, if_pos hs, Bool.and_eq_true, beq_iff_eq] at hd
      intro he
      exact divergeB_ne hd.2 (List.cons.injEq a u b v ▸ he).2
    · intro he
      have hab : a = b := (List.cons.injEq a u b v ▸ he).1
      exact hs (hab ▸ rfl)

/-- `Map.set` then `get` at the written key. -/
theorem ChildMap.find_set_self {T : Type} :
    ∀ (ch : ChildMap T) (k : String) (v : TrieNode T), (ch.set k v).find k = .some v
  | .nil, k, v => by simp [ChildMap.set, ChildMap.find]
  | .cons k2 n rest, k, v => by
    by_cases hk : k2 = k
    · simp [ChildMap.set, hk, ChildMap.find]
    · simp only [ChildMap.set, if_neg hk, ChildMap.find, if_neg hk]
      exact ChildMap.find_set_self rest k v

/-- `Map.set` leaves other keys untouched. -/
theorem ChildMap.find_set_ne {T : Type} :
    ∀ (ch : ChildMap T) (k k2 : String) (v : TrieNode T), k2 ≠ k →
      (ch.set k v).find k2 = ch.find k2
  | .nil, k, k2, v, hk => by
    simp only [ChildMap.set, ChildMap.find]
    rw [if_neg (fun h => hk h.symm)]
  | .cons k3 n rest, k, k2, v, hk => by
    by_cases h3 : k3 = k
    · simp only [ChildMap.set, if_pos h3, ChildMap.find]
      rw [if_neg (fun h => hk h.symm), if_neg (fun h => hk ((h3.symm.trans h).symm))]
    · simp only [ChildMap.set, if_neg h3, ChildMap.find]
      by_cases h4 : k3 = k2
      · rw [if_pos h4, if_pos h4]
      · rw [if_neg h4, if_neg h4]
        exact ChildMap.find_set_ne rest k k2 v hk

/-- Inserting a non-empty path never flips the root's endpoint flag. -/
theorem insertPath_isEndpoint_cons {T : Type} (f : TrieNode T → TrieNode T)
    (n : TrieNode T) (seg : String) (rest : List String) :
    (insertPath f n (seg :: rest)).isEndpoint = n.isEndpoint := by
  cases n with
  | mk t s p pn ch pc wc hd ctr mw g sch e =>
    by_cases hw : seg = "*"
    · simp [insertPath, hw, TrieNode.isEndpoint]
    · simp only [insertPath, if_neg hw]
      cases hps : parseSegmentPattern seg with
      | some pat => simp [TrieNode.isEndpoint]
      | none =>
        by_cases hc : startsWithColon seg = true
        · simp [hc, TrieNode.isEndpoint]
        · simp [hc, TrieNode.isEndpoint]

/-- Freshness of a non-empty path only reads the slot its head is routed
to: two trees agreeing on the wildcard child, the parametric child and the
static child at the head's key (each only where the head would look) give
the same verdict. -/
theorem FreshPath_cons_congr {T : Type} (n n2 : TrieNode T) (b : String) (v : List String)
    (hw : b = "*" → n2.wildcardChild = n.wildcardChild)
    (hp : ¬b = "*" → (parseSegmentPattern b).isSome ∨ startsWithColon b = true →
      n2.paramChild = n.paramChild)
    (hs : ¬b = "*" → parseSegmentPattern b = none → ¬startsWithColon b = true →
      n2.children.find b = n.children.find b) :
    FreshPath n (b :: v) → FreshPath n2 (b :: v) := by
  intro hv
  simp only [FreshPath] at hv ⊢
  by_cases hwb : b = "*"
  · rw [if_pos hwb] at hv ⊢
    rw [hw hwb]
    exact hv
  · rw [if_neg hwb] at hv ⊢
    cases hpb : parseSegmentPattern b with
    | some pat =>
      simp only [hpb] at hv ⊢
      rw [hp hwb (Or.inl (by rw [hpb]; rfl))]
      exact hv
    | none =>
      simp only [hpb] at hv ⊢
      by_cases hcb : startsWithColon b = true
      · rw [if_pos hcb] at hv ⊢
        rw [hp hwb (Or.inr hcb)]
        exact hv
      · rw [if_neg hcb] at hv ⊢
        rw [hs hwb hpb hcb]
        exact hv
theorem slotOf_param_of {b : String} (hb : ¬b = "*")
    (hpb : (parseSegmentPattern b).isSome ∨ startsWithColon b = true) :
    slotOf b = .param := by
  cases hpb3 : parseSegmentPattern b with
  | some pb => exact slotOf_pat hb hpb3
  | none =>
    rcases hpb with hp1 | hp2
    · rw [hpb3] at hp1
      simp [Option.isSome] at hp1
    · exact slotOf_colon hb hpb3 hp2

/-- Registering one path never breaks the freshness of a diverging path:
where the two paths still agree they share the walk, and at the divergence
point the insertion happens in a slot the other path never reads. -/
theorem FreshPath_insert {T : Type} (h : EventHandler T) (cfg : RouteConfig T) :
    ∀ (u v : List String) (n : TrieNode T), divergeB u v = true → FreshPath n v →
      FreshPath (insertPath (finalizeOn h cfg) n u) v := by
  intro u
  induction u with
  | nil =>
    intro v n hd hv
    cases v with
    | nil => simp [divergeB] at hd
    | cons b v2 =>
      cases n with
      | mk t s p pn ch pc wc hd0 ctr mw g sch e =>
        exact FreshPath_cons_congr _ _ b v2 (fun _ => rfl) (fun _ _ => rfl)
          (fun _ _ _ => rfl) hv
  | cons a u2 ih =>
    intro v n hd hv
    cases n with
    | mk t s p pn ch pc wc hd0 ctr mw g sch e =>
      cases v with
      | nil =>
        show (insertPath (finalizeOn h cfg)
          (TrieNode.mk t s p pn ch pc wc hd0 ctr mw g sch e) (a :: u2)).isEndpoint = false
        rw [insertPath_isEndpoint_cons]
        exact hv
      | cons b v2 =>
        rw [divergeB] at hd
        by_cases hslot : slotOf a = slotOf b
        · rw [if_pos hslot, Bool.and_eq_true, beq_iff_eq] at hd
          obtain ⟨hab, hd2⟩ := hd
          subst hab
          by_cases hwa : a = "*"
          · simp only [insertPath, if_pos hwa]
            simp only [FreshPath, if_pos hwa, TrieNode.wildcardChild] at hv ⊢
            cases wc with
            | some w => exact ih v2 w hd2 hv
            | none => exact ih v2 _ hd2 (FreshPath_new "*" NodeType.wildcard v2)
          · cases hpa : parseSegmentPattern a with
            | some pat =>
              simp only [insertPath, if_neg hwa, hpa]
              simp only [FreshPath, if_neg hwa, hpa, TrieNode.paramChild] at hv ⊢
              cases pc with
              | some p0 =>
                obtain ⟨hpseg, hpf⟩ := hv
                exact ⟨(insertPath_segment _ (finalizeOn_segment h cfg) p0 u2).trans hpseg,
                  ih v2 p0 hd2 hpf⟩
              | none =>
                exact ⟨insertPath_segment _ (finalizeOn_segment h cfg) _ u2,
                  ih v2 _ hd2 (FreshPath_leaf NodeType.param a (some pat) none
                    (T := T) none [] [] [] none v2)⟩
            | none =>
              simp only [insertPath, if_neg hwa, hpa]
              by_cases hca : startsWithColon a = true
              · rw [if_pos hca]
                simp only [FreshPath, if_neg hwa, hpa, if_pos hca,
                  TrieNode.paramChild] at hv ⊢
                cases pc with
                | some p0 =>
                  obtain ⟨hpseg, hpf⟩ := hv
                  exact ⟨(insertPath_segment _ (finalizeOn_segment h cfg) p0 u2).trans hpseg,
                    ih v2 p0 hd2 hpf⟩
                | none =>
                  exact ⟨insertPath_segment _ (finalizeOn_segment h cfg) _ u2,
                    ih v2 _ hd2 (FreshPath_leaf NodeType.param a none (some (sliceOne a))
                      (T := T) none [] [] [] none v2)⟩
              · rw [if_neg hca]
                simp only [FreshPath, if_neg hwa, hpa, if_neg hca,
                  TrieNode.children] at hv ⊢
                cases hfind : ch.find a with
                | some c =>
                  simp only [hfind] at hv
                  dsimp only [OptNode.getD]
                  rw [ChildMap.find_set_self]
                  exact ih v2 c hd2 hv
                | none =>
                  dsimp only [OptNode.getD]
                  rw [ChildMap.find_set_self]
                  exact ih v2 _ hd2 (FreshPath_new a NodeType.static v2)
        · by_cases hwa : a = "*"
          · simp only [insertPath, if_pos hwa]
            refine FreshPath_cons_congr (TrieNode.mk t s p pn ch pc wc hd0 ctr mw g sch e) _ b v2 ?_ (fun _ _ => rfl) (fun _ _ _ => rfl) hv
            intro hb
            exact absurd ((slotOf_wild hwa).trans (slotOf_wild hb).symm) hslot
          · cases hpa : parseSegmentPattern a with
            | some pat =>
              simp only [insertPath, if_neg hwa, hpa]
              refine FreshPath_cons_congr (TrieNode.mk t s p pn ch pc wc hd0 ctr mw g sch e) _ b v2 (fun _ => rfl) ?_ (fun _ _ _ => rfl) hv
              intro hb hpb
              exact absurd ((slotOf_pat hwa hpa).trans (slotOf_param_of hb hpb).symm) hslot
            | none =>
              simp only [insertPath, if_neg hwa, hpa]
              by_cases hca : startsWithColon a = true
              · rw [if_pos hca]
                refine FreshPath_cons_congr (TrieNode.mk t s p pn ch pc wc hd0 ctr mw g sch e) _ b v2 (fun _ => rfl) ?_ (fun _ _ _ => rfl) hv
                intro hb hpb
                exact absurd ((slotOf_colon hwa hpa hca).trans (slotOf_param_of hb hpb).symm)
                  hslot
              · rw [if_neg hca]
                refine FreshPath_cons_congr (TrieNode.mk t s p pn ch pc wc hd0 ctr mw g sch e) _ b v2 (fun _ => rfl) (fun _ _ => rfl) ?_ hv
                intro hb hpb hcb
                have hne : b ≠ a := by
                  intro he
                  subst he
                  exact hslot ((slotOf_stat hwa hpa hca).trans (slotOf_stat hb hpb hcb).symm)
                simp only [TrieNode.children]
                exact ChildMap.find_set_ne ch a b _ hne
/-! ### Batch registration and the round-trip -/

/-- Sequential registration of parsed paths into a subtree. -/
def insFold {T : Type} :
    TrieNode T → List (List String × EventHandler T × RouteConfig T) → TrieNode T
  | n, [] => n
  | n, (segs, h, cfg) :: rest => insFold (insertPath (finalizeOn h cfg) n segs) rest

/-- Sequential `on` registrations on a router. -/
def regAll {T : Type} :
    EventRouter T → List (String × EventHandler T × RouteConfig T) → EventRouter T
  | r, [] => r
  | r, (c, h, cfg) :: rest => regAll (r.on c h cfg) rest

theorem regAll_delimiter {T : Type} :
    ∀ (l : List (String × EventHandler T × RouteConfig T)) (r : EventRouter T),
      (regAll r l).delimiter = r.delimiter
  | [], _ => rfl
  | (c, h, cfg) :: rest, r => regAll_delimiter rest (r.on c h cfg)

theorem regAll_root {T : Type} :
    ∀ (l : List (String × EventHandler T × RouteConfig T)) (r : EventRouter T),
      (regAll r l).root =
        insFold r.root (l.map (fun p => (chanSplit r.delimiter p.1, p.2)))
  | [], _ => rfl
  | (c, h, cfg) :: rest, r => by
    show (regAll (r.on c h cfg) rest).root = _
    rw [regAll_root rest (r.on c h cfg)]
    rfl

/-- Folding pairwise-diverging fresh registrations accumulates exactly their
parsed paths, up to permutation. -/
theorem insFold_perm {T : Type} :
    ∀ (l : List (List String × EventHandler T × RouteConfig T)) (n : TrieNode T),
      (∀ p ∈ l, FreshPath n p.1) →
      List.Pairwise (fun p q => divergeB p.1 q.1 = true) l →
      List.Perm (routePaths (insFold n l)) (l.map (fun p => p.1) ++ routePaths n)
  | [], n, _, _ => by simp [insFold]
  | (segs, h, cfg) :: rest, n, hfresh, hpw => by
    rw [List.pairwise_cons] at hpw
    obtain ⟨hhead, hpw2⟩ := hpw
    have hfr2 : ∀ p ∈ rest, FreshPath (insertPath (finalizeOn h cfg) n segs) p.1 :=
      fun p hp => FreshPath_insert h cfg segs p.1 n (hhead p hp)
        (hfresh p (List.mem_cons_of_mem _ hp))
    have h1 := insFold_perm rest (insertPath (finalizeOn h cfg) n segs) hfr2 hpw2
    have h2 := routePaths_insert h cfg segs n (hfresh _ (List.mem_cons_self _ _))
    show List.Perm (routePaths (insFold (insertPath (finalizeOn h cfg) n segs) rest)) _
    refine h1.trans ((List.Perm.append_left _ h2).trans ?_)
    exact List.perm_middle

theorem getRoutes_regAll {T : Type} (regs : List (String × EventHandler T × RouteConfig T)) :
    EventRouter.getRoutes (regAll (EventRouter.empty T) regs) =
      collectRoutes ":" []
        (insFold (TrieNode.new "" NodeType.static)
          (regs.map (fun p => (chanSplit ":" p.1, p.2)))) := by
  show collectRoutes (regAll (EventRouter.empty T) regs).delimiter []
      (regAll (EventRouter.empty T) regs).root = _
  rw [regAll_delimiter, regAll_root]
  rfl

/-- Pairwise-diverging registrations render to exactly their normalized
template strings, up to permutation. -/
theorem getRoutes_regAll_perm {T : Type}
    (regs : List (String × EventHandler T × RouteConfig T))
    (hdiv : List.Pairwise
      (fun p q => divergeB (chanSplit ":" p.1) (chanSplit ":" q.1) = true) regs) :
    List.Perm (EventRouter.getRoutes (regAll (EventRouter.empty T) regs))
      (regs.map (fun p => jsJoin ":" (chanSplit ":" p.1))) := by
  rw [getRoutes_regAll]
  have hfresh : ∀ p ∈ regs.map (fun p => (chanSplit ":" p.1, p.2)),
      FreshPath (TrieNode.new "" NodeType.static : TrieNode T) p.1 :=
    fun p _ => FreshPath_new "" NodeType.static p.1
  have hpw : List.Pairwise (fun p q => divergeB p.1 q.1 = true)
      (regs.map (fun p => (chanSplit ":" p.1, p.2))) := by
    rw [List.pairwise_map]
    exact hdiv
  have hperm0 := insFold_perm (regs.map (fun p => (chanSplit ":" p.1, p.2)))
    (TrieNode.new "" NodeType.static) hfresh hpw
  rw [routePaths_new, List.append_nil] at hperm0
  rw [collectRoutes_eq_paths ":" _ []]
  simp only [List.nil_append]
  refine (hperm0.map (fun q => jsJoin ":" q)).trans ?_
  rw [List.map_map, List.map_map]
  exact List.Perm.refl _

/-- Diverging templates render to different strings: their parsed segment
lists differ, every segment is non-empty and `':'`-free, and joining with
`":"` is injective on such lists. -/
theorem render_ne_of_diverge {c1 c2 : String}
    (hd : divergeB (chanSplit ":" c1) (chanSplit ":" c2) = true) :
    jsJoin ":" (chanSplit ":" c1) ≠ jsJoin ":" (chanSplit ":" c2) := by
  intro he
  exact divergeB_ne hd
    (jsJoin_colon_inj (chanSplit ":" c1) (chanSplit ":" c2)
      (fun s hs => chanSplit_segments c1 s hs)
      (fun s hs => chanSplit_segments c2 s hs) he)
/-- Claim C8, counterexample. Two distinct templates `a:[x]` and `a:[y]`
are registered (N = 2), but `getRoutes()` returns the single string
`a:[x]`: both parametric segments are routed to the same sole parametric
child slot under `a`, the first registration's stored segment text wins,
and `collectRoutes` renders that one slot once — an omission. -/
theorem claim_C8_counterexample :
    ("a:[x]" : String) ≠ "a:[y]" ∧
    EventRouter.getRoutes (((EventRouter.empty Nat).on "a:[x]" (tagHandler Nat "X")
        (RouteConfig.none Nat)).on "a:[y]" (tagHandler Nat "Y") (RouteConfig.none Nat)) =
      ["a:[x]"] := by
  exact ⟨by decide, by rfl⟩

/-- Claim C8, amended: `getRoutes()` after N registrations returns exactly
the N normalized template strings (each channel split on `":"` with empty
segments dropped, then re-joined; wildcard segments render as the literal
`*` and parametric segments as their registered text), with no duplicates
and no omissions — provided the parsed templates are pairwise *diverging*:
at the first position where two templates differ they must not both be
parametric segments, since subsequent distinct parametric segments at the
same trie depth share the sole parametric child slot (first registration
wins) and the collapsed slot is rendered only once. -/
theorem claim_C8_amended {T : Type} (regs : List (String × EventHandler T × RouteConfig T))
    (hdiv : List.Pairwise
      (fun p q => divergeB (chanSplit ":" p.1) (chanSplit ":" q.1) = true) regs) :
    List.Perm (EventRouter.getRoutes (regAll (EventRouter.empty T) regs))
        (regs.map (fun p => jsJoin ":" (chanSplit ":" p.1))) ∧
      (EventRouter.getRoutes (regAll (EventRouter.empty T) regs)).Nodup ∧
      (EventRouter.getRoutes (regAll (EventRouter.empty T) regs)).length = regs.length := by
  have hperm := getRoutes_regAll_perm regs hdiv
  have hpne : List.Pairwise (fun p q : String × EventHandler T × RouteConfig T =>
      jsJoin ":" (chanSplit ":" p.1) ≠ jsJoin ":" (chanSplit ":" q.1)) regs :=
    hdiv.imp (fun h => render_ne_of_diverge h)
  have hnd : (regs.map (fun p => jsJoin ":" (chanSplit ":" p.1))).Nodup :=
    List.pairwise_map.mpr hpne
  exact ⟨hperm, (hperm.nodup_iff).mpr hnd, hperm.length_eq.trans (by simp)⟩

/-- The three registrations of the C8 witness: a static route, a parametric
sibling (diverging from the static one at the second segment, a
static/parametric split) and a wildcard route under a different head. -/
def C8regs : List (String × EventHandler Nat × RouteConfig Nat) :=
  [("a:b", tagHandler Nat "1", RouteConfig.none Nat),
   ("a:[x]", tagHandler Nat "2", RouteConfig.none Nat),
   ("c:*", tagHandler Nat "3", RouteConfig.none Nat)]

/-- Claim C8, witness: the amended theorem's divergence hypothesis
discharged on three concrete templates; `getRoutes` returns exactly the
three template strings. -/
theorem claim_C8_witness :
    List.Pairwise
        (fun p q => divergeB (chanSplit ":" p.1) (chanSplit ":" q.1) = true) C8regs ∧
      (List.Perm (EventRouter.getRoutes (regAll (EventRouter.empty Nat) C8regs))
          (C8regs.map (fun p => jsJoin ":" (chanSplit ":" p.1))) ∧
        (EventRouter.getRoutes (regAll (EventRouter.empty Nat) C8regs)).Nodup ∧
        (EventRouter.getRoutes (regAll (EventRouter.empty Nat) C8regs)).length =
          C8regs.length) :=
  ⟨by decide, claim_C8_amended C8regs (by decide)⟩
